import Mathlib

/-!
A shallow embedding of the atomic shopping-cart engine (`app/atomic_scripts.py`,
`app/cart_service.py`, `app/redis_client.py`).

The cache server state is a `Store`: an association list of hash keys to hashes
(themselves association lists of field names to stored payloads) together with
per-key TTLs.  Stored payloads are modelled by `Payload`: either a well-formed
JSON object over `JVal` scalars, a JSON scalar, or text that is not JSON at all
(`cjson.decode` / `json.loads` fail on it).  The three Lua scripts are
translated command by command; Lua runtime errors (e.g. `cjson.decode` on a
corrupt entry) surface as `Except.error` alongside the store reached so far,
since Redis does not roll back the commands a failing script has already run.

Python's `decimal.Decimal` is modelled by `Dec`, an integer of units together
with a decimal scale (exactly the coefficient/exponent representation the
`decimal` module uses); `Dec.toRat` is the exact rational value.
-/

namespace CartSpec

/-- Equality of tagged results is decidable (used to evaluate the model on
concrete inputs). -/
instance {ε α : Type} [DecidableEq ε] [DecidableEq α] :
    DecidableEq (Except ε α) := fun x y =>
  match x, y with
  | .error e, .error f =>
    if h : e = f then .isTrue (by rw [h])
    else .isFalse (fun hh => h (Except.error.inj hh))
  | .error _, .ok _ => .isFalse (fun hh => Except.noConfusion hh)
  | .ok _, .error _ => .isFalse (fun hh => Except.noConfusion hh)
  | .ok a, .ok b =>
    if h : a = b then .isTrue (by rw [h])
    else .isFalse (fun hh => h (Except.ok.inj hh))

/-- `10 ^ n` on naturals by structural recursion (kernel-reducible). -/
def pow10n : Nat → Nat
  | 0 => 1
  | n + 1 => 10 * pow10n n

/-- `10 ^ n` as an integer. -/
def pow10 (n : Nat) : Int := (pow10n n : Int)

/-- Exact decimal number: `units / 10 ^ scale`.  Models Python `Decimal`,
which keeps the written scale (`Decimal "5.00"` has scale 2). -/
structure Dec where
  units : Int
  scale : Nat
deriving DecidableEq

/-- The exact rational value of a decimal. -/
def Dec.toRat (a : Dec) : ℚ := (a.units : ℚ) / (pow10n a.scale : ℚ)

/-- Decimal addition: align to the larger scale, as `decimal.Decimal` does. -/
def Dec.add (a b : Dec) : Dec :=
  let s := max a.scale b.scale
  ⟨a.units * pow10 (s - a.scale) + b.units * pow10 (s - b.scale), s⟩

/-- Decimal multiplication: scales add, as `decimal.Decimal` does. -/
def Dec.mul (a b : Dec) : Dec := ⟨a.units * b.units, a.scale + b.scale⟩

/-- Value comparison of decimals (cross-multiplied integer comparison). -/
def Dec.le (a b : Dec) : Prop := a.units * pow10 b.scale ≤ b.units * pow10 a.scale

instance (a b : Dec) : Decidable (Dec.le a b) :=
  inferInstanceAs (Decidable (_ ≤ _))

/-- `min` of two decimals by value, mirroring Python's `min`. -/
def Dec.minD (a b : Dec) : Dec := if Dec.le a b then a else b

/-- The numeric value of a decimal digit character. -/
def digToNat (c : Char) : Option Nat :=
  if c.isDigit then some (c.toNat - 48) else none

/-- Accumulate a digit string into a natural number; fails on a non-digit. -/
def digitsToNatAux : List Char → Nat → Option Nat
  | [], acc => some acc
  | c :: cs, acc =>
    match digToNat c with
    | none => none
    | some d => digitsToNatAux cs (acc * 10 + d)

/-- Parse a non-empty digit string. -/
def digitsToNat (cs : List Char) : Option Nat :=
  if cs.isEmpty then none else digitsToNatAux cs 0

/-- Split a character list at the first `.`, if any. -/
def breakDot : List Char → List Char × Option (List Char)
  | [] => ([], none)
  | c :: rest =>
    if c = '.' then ([], some rest)
    else
      let p := breakDot rest
      (c :: p.1, p.2)

/-- Parse an unsigned decimal literal `digits[.digits]` into units and scale. -/
def parseUnsigned (cs : List Char) : Option (Nat × Nat) :=
  match breakDot cs with
  | (intPart, none) => (digitsToNat intPart).map (fun n => (n, 0))
  | (intPart, some fracPart) =>
    if intPart.isEmpty ∧ fracPart.isEmpty then none
    else
      let ip := if intPart.isEmpty then some 0 else digitsToNat intPart
      let fp := if fracPart.isEmpty then some 0 else digitsToNat fracPart
      match ip, fp with
      | some i, some f => some (i * pow10n fracPart.length + f, fracPart.length)
      | _, _ => none

/-- Parse a plain decimal string (`[+|-]digits[.digits]`) as `Decimal(s)` does.
Exponent notation and special values are outside the modelled value space. -/
def parseDec (s : String) : Option Dec :=
  match s.data with
  | [] => none
  | '-' :: rest => (parseUnsigned rest).map (fun p => ⟨-(p.1 : Int), p.2⟩)
  | '+' :: rest => (parseUnsigned rest).map (fun p => ⟨(p.1 : Int), p.2⟩)
  | cs => (parseUnsigned cs).map (fun p => ⟨(p.1 : Int), p.2⟩)

/-- Parse an integer string (`[-]digits`), as Lua `tonumber` / pydantic lax
`int` coercion do on the integer-valued strings the system stores. -/
def parseIntStr (s : String) : Option Int :=
  match s.data with
  | '-' :: rest => (digitsToNat rest).map (fun n => -(n : Int))
  | cs => (digitsToNat cs).map (fun n => (n : Int))

/-- A JSON scalar value as stored inside a cart-item record. -/
inductive JVal where
  | jnum : Int → JVal
  | jstr : String → JVal
  | jnull : JVal
deriving DecidableEq

/-- A value stored in a cart hash field, as seen by `json.loads` /
`cjson.decode`:  either text that is not JSON (`malformed`), a JSON scalar, or
a JSON object of named scalar fields. -/
inductive Payload where
  | malformed : String → Payload
  | scalar : JVal → Payload
  | obj : List (String × JVal) → Payload
deriving DecidableEq

/-- First-match lookup in an association list (Redis hash field lookup). -/
def getField {α : Type} : List (String × α) → String → Option α
  | [], _ => none
  | (g, w) :: t, f => if g = f then some w else getField t f

/-- Replace the first binding of a field, or append a new one (`HSET`). -/
def setField {α : Type} : List (String × α) → String → α → List (String × α)
  | [], f, v => [(f, v)]
  | (g, w) :: t, f, v => if g = f then (f, v) :: t else (g, w) :: setField t f v

/-- Remove all bindings of a field (`HDEL` / `DEL`). -/
def delField {α : Type} : List (String × α) → String → List (String × α)
  | [], _ => []
  | (g, w) :: t, f => if g = f then delField t f else (g, w) :: delField t f

/-- The cache server state: one hash per key, one optional TTL per key.  A key
is bound in `hashes` exactly when the key exists on the server.  (Real Redis
also reclaims a hash whose last field is deleted; the model keeps such a key
so that the scripts' explicit empty-cart cleanup is what upholds the
no-empty-hash invariant, which therefore holds under either semantics.) -/
structure Store where
  hashes : List (String × List (String × Payload))
  ttls : List (String × Int)
deriving DecidableEq

/-- `HGETALL`: all fields of a hash, `[]` when the key is absent. -/
def Store.hgetall (st : Store) (k : String) : List (String × Payload) :=
  (getField st.hashes k).getD []

/-- `HLEN`: number of fields of a hash. -/
def Store.hlen (st : Store) (k : String) : Nat := (st.hgetall k).length

/-- `HGET`: one field of a hash. -/
def Store.hget (st : Store) (k : String) (f : String) : Option Payload :=
  getField (st.hgetall k) f

/-- `HSET`: write one field, creating the key if needed. -/
def Store.hset (st : Store) (k f : String) (v : Payload) : Store :=
  { st with hashes := setField st.hashes k (setField (st.hgetall k) f v) }

/-- `HDEL`: delete one field, returning how many fields were removed.  The key
itself stays, even when its hash becomes empty (see `Store`). -/
def Store.hdel (st : Store) (k f : String) : Store × Nat :=
  match getField st.hashes k with
  | none => (st, 0)
  | some h =>
    (⟨setField st.hashes k (delField h f), st.ttls⟩,
     if (getField h f).isSome then 1 else 0)

/-- `DEL`: remove a key and its TTL, returning how many keys were removed. -/
def Store.del (st : Store) (k : String) : Store × Nat :=
  (⟨delField st.hashes k, delField st.ttls k⟩,
   if (getField st.hashes k).isSome then 1 else 0)

/-- `EXISTS`. -/
def Store.existsKey (st : Store) (k : String) : Bool :=
  (getField st.hashes k).isSome

/-- `EXPIRE`: set a TTL; a no-op when the key does not exist. -/
def Store.expire (st : Store) (k : String) (t : Int) : Store :=
  if st.existsKey k then ⟨st.hashes, setField st.ttls k t⟩ else st

/-- The TTL currently attached to a key, if any (observation only). -/
def Store.cartTTL (st : Store) (k : String) : Option Int :=
  getField st.ttls k

/-! ### Lua-side decoding of stored entries

`cjson.decode(raw)` raises on non-JSON text; decoding a JSON scalar succeeds.
Field access `decoded[name]` yields `nil` for a missing object field and for
any field of a decoded string (Lua strings index into the string library), and
raises a Lua error when the decoded value is a number or null. -/

/-- The field table a Lua script sees after `cjson.decode`: `none` is a Lua
runtime error, `some []` a decoded scalar string (every index gives `nil`). -/
def luaFields : Payload → Option (List (String × JVal))
  | .malformed _ => none
  | .scalar (.jstr _) => some []
  | .scalar _ => none
  | .obj fs => some fs

/-- `tonumber(decoded.quantity) or 0`, the quantity a script reads from a
stored entry (`none` = Lua error on the decode itself). Non-integer numeric
strings are outside the modelled value space: the scripts only ever store
integer quantities. -/
def luaQtyOf (p : Payload) : Option Int :=
  (luaFields p).map (fun (fs : List (String × JVal)) =>
    match getField fs "quantity" with
    | some (.jnum n) => n
    | some (.jstr s) => (parseIntStr s).getD 0
    | _ => 0)

/-- The quantity field of a stored entry when it is a JSON integer. -/
def entryQtyJ : Payload → Option Int
  | .obj fs =>
    match getField fs "quantity" with
    | some (.jnum n) => some n
    | _ => none
  | _ => none

/-- The quantity of a stored entry, `0` when not a JSON integer. -/
def entryQtyInt (p : Payload) : Int := (entryQtyJ p).getD 0

/-- `cjson.encode {quantity = q, price_snapshot = price, variant = v}` as the
add-item script builds it (the model fixes the object's field order). -/
def encodeItem (q : Int) (price variant : String) : Payload :=
  .obj [("quantity", .jnum q), ("price_snapshot", .jstr price),
        ("variant", .jstr variant)]

/-- A stored entry of exactly the shape the scripts write: integer quantity,
a price string that parses as a decimal, a string variant. -/
def isWFEntry : Payload → Bool
  | .obj [("quantity", .jnum q), ("price_snapshot", .jstr pr), ("variant", .jstr _)] =>
    decide (0 ≤ q) && (parseDec pr).isSome
  | _ => false

/-! ### The atomic Lua scripts (`app/atomic_scripts.py`)

Each script is a function from its arguments and the store to the store it
leaves behind plus either its structured reply or a Lua runtime error.  The
Python layer passes every numeric argument as a string and the script reads it
back with `tonumber`; that round trip is the identity, so the model takes the
numbers directly. -/

/-- Replies of `ADD_ITEM_SCRIPT`: the `{err = ...}` tables and the success
table `{ok = true, quantity, is_new}`. -/
inductive AddReply where
  | maxQuantityExceeded : Int → Int → AddReply
  | maxItemsExceeded : Int → Int → AddReply
  | okAdd : Int → Bool → AddReply
deriving DecidableEq

/-- `existing_qty` as the add-item script computes it: `0` when the product is
absent, else decoded from the stored entry (`none` = Lua error). -/
def addExistingQty (st : Store) (cart_key product_id : String) : Option Int :=
  match st.hget cart_key product_id with
  | none => some 0
  | some p => luaQtyOf p

/-- `ADD_ITEM_SCRIPT`, line by line: read the item count and any existing
quantity, validate the two limits, then write the fresh record (incoming price
and variant), refresh the TTL and report the new quantity. -/
def ADD_ITEM_SCRIPT (cart_key product_id : String) (quantity : Int)
    (price_snapshot variant : String) (max_items max_quantity ttl : Int)
    (st : Store) : Store × Except Unit AddReply :=
  let item_count := st.hlen cart_key
  match addExistingQty st cart_key product_id with
  | none => (st, .error ())
  | some existing_qty =>
    let new_qty := existing_qty + quantity
    if new_qty > max_quantity then
      (st, .ok (.maxQuantityExceeded max_quantity new_qty))
    else if existing_qty = 0 ∧ (item_count : Int) ≥ max_items then
      (st, .ok (.maxItemsExceeded max_items (item_count : Int)))
    else
      let st1 := st.hset cart_key product_id (encodeItem new_qty price_snapshot variant)
      (st1.expire cart_key ttl, .ok (.okAdd new_qty (decide (existing_qty = 0))))

/-- Replies of `UPDATE_QUANTITY_SCRIPT`. -/
inductive UpdateReply where
  | productNotFound : UpdateReply
  | invalidQuantity : Int → UpdateReply
  | maxQuantityExceeded : Int → Int → UpdateReply
  | okUpdate : Int → Bool → UpdateReply
deriving DecidableEq

/-- `UPDATE_QUANTITY_SCRIPT`, line by line: absence check first, then the
quantity validations, then either delete the entry (removing the whole cart
key when it was the last one) or overwrite the quantity keeping the stored
price and variant; refresh the TTL on every surviving cart. -/
def UPDATE_QUANTITY_SCRIPT (cart_key product_id : String)
    (quantity max_quantity ttl : Int) (st : Store) :
    Store × Except Unit UpdateReply :=
  match st.hget cart_key product_id with
  | none => (st, .ok .productNotFound)
  | some existing_item =>
    if quantity < 0 then (st, .ok (.invalidQuantity quantity))
    else if quantity > max_quantity then
      (st, .ok (.maxQuantityExceeded max_quantity quantity))
    else
      match luaFields existing_item with
      | none => (st, .error ())
      | some fs =>
        let price_snapshot := getField fs "price_snapshot"
        let variantJ := (getField fs "variant").getD (.jstr "")
        if quantity = 0 then
          let st1 := (st.hdel cart_key product_id).1
          if st1.hlen cart_key > 0 then
            (st1.expire cart_key ttl, .ok (.okUpdate 0 true))
          else
            ((st1.del cart_key).1, .ok (.okUpdate 0 true))
        else
          let pay : Payload := .obj
            ([("quantity", JVal.jnum quantity)] ++
             (match price_snapshot with
              | some v => [("price_snapshot", v)]
              | none => []) ++
             [("variant", variantJ)])
          ((st.hset cart_key product_id pay).expire cart_key ttl,
           .ok (.okUpdate quantity false))

/-- Replies of `MERGE_CART_SCRIPT`. -/
inductive MergeReply where
  | emptySource : MergeReply
  | okMerge : Nat → Nat → String → MergeReply
deriving DecidableEq

/-- The record the merge script writes for a conflict under the `sum` policy:
summed quantity, price and variant taken from the source entry. -/
def sumPayload (src : Payload) (q : Int) : Payload :=
  let fs := (luaFields src).getD []
  .obj ([("quantity", JVal.jnum q)] ++
        (match getField fs "price_snapshot" with
         | some v => [("price_snapshot", v)]
         | none => []) ++
        [("variant", (getField fs "variant").getD (.jstr ""))])

/-- The merge script's per-source-entry loop.  `tmap` is the snapshot of the
target hash taken before the loop (`target_map` in the Lua); conflict checks
and target quantities read this snapshot, never the live store.  A Lua error
(corrupt entry) aborts the loop but keeps the writes already made, as Redis
does. -/
def mergeLoop (target_key policy : String) (tmap : List (String × Payload)) :
    List (String × Payload) → Store → Nat → Nat →
    Store × Except Unit (Nat × Nat)
  | [], st, m, c => (st, .ok (m, c))
  | (pid, raw) :: rest, st, m, c =>
    match luaQtyOf raw with
    | none => (st, .error ())
    | some source_qty =>
      match getField tmap pid with
      | some tpay =>
        match luaQtyOf tpay with
        | none => (st, .error ())
        | some target_qty =>
          let written :=
            if policy = "sum" then sumPayload raw (source_qty + target_qty)
            else raw
          mergeLoop target_key policy tmap rest
            (st.hset target_key pid written) (m + 1) (c + 1)
      | none =>
        mergeLoop target_key policy tmap rest
          (st.hset target_key pid raw) (m + 1) c

/-- Whether building `target_map` succeeds: `cjson.decode` raises only on
non-JSON text. -/
def decodeAllOK (l : List (String × Payload)) : Bool :=
  l.all (fun fp =>
    match fp.2 with
    | .malformed _ => false
    | _ => true)

/-- `MERGE_CART_SCRIPT`, line by line: empty source returns trivially, else
snapshot the target, fold every source entry into the target, refresh the
target TTL when the target key exists, and unconditionally delete the source
key. -/
def MERGE_CART_SCRIPT (source_key target_key conflict_resolution : String)
    (ttl : Int) (st : Store) : Store × Except Unit MergeReply :=
  let source_items := st.hgetall source_key
  if source_items.isEmpty then (st, .ok .emptySource)
  else
    let target_items := st.hgetall target_key
    if decodeAllOK target_items then
      match mergeLoop target_key conflict_resolution target_items source_items st 0 0 with
      | (st1, .error e) => (st1, .error e)
      | (st1, .ok mc) =>
        let st2 := if st1.existsKey target_key then st1.expire target_key ttl else st1
        ((st2.del source_key).1,
         .ok (.okMerge mc.1 mc.2 conflict_resolution))
    else (st, .error ())

/-! ### Service layer (`app/cart_service.py`)

Service methods wrap the scripts: they prevalidate inputs, map structured
script failures to typed exceptions, and run the plain-command operations
(remove, clear, read).  Exceptions are modelled structurally (class plus the
numeric data its message interpolates); a Lua runtime error reaches the caller
as `RedisConnectionError` via the transport wrapper. -/

/-- The externally configured limits and TTLs (`app/config.py`). -/
structure Config where
  MAX_ITEMS_PER_CART : Int
  MAX_QUANTITY_PER_ITEM : Int
  CART_TTL_SECONDS : Int
  GUEST_CART_TTL_SECONDS : Int
deriving DecidableEq

/-- The defaults from `app/config.py`. -/
def defaultConfig : Config := ⟨200, 99, 604800, 86400⟩

/-- The typed exceptions a service call can surface
(`app/exceptions.py`); `uncaughtErr` stands for a Python exception no handler
catches (e.g. `decimal.InvalidOperation` inside `get_cart`). -/
inductive SvcErr where
  | validationErr : SvcErr
  | limitExceeded : Int → SvcErr
  | productNotFoundErr : String → SvcErr
  | cartNotFoundErr : String → SvcErr
  | redisConnErr : SvcErr
  | uncaughtErr : SvcErr
deriving DecidableEq

/-- The Redis key of a cart (`CartService._get_cart_key`). -/
def cartKeyOf (cart_id : String) : String := "cart:" ++ cart_id

/-- `CartService._get_ttl`. -/
def ttlOf (cfg : Config) (is_guest : Bool) : Int :=
  if is_guest then cfg.GUEST_CART_TTL_SECONDS else cfg.CART_TTL_SECONDS

namespace CartService

/-- `CartService.update_quantity`: prevalidate the quantity against `0` and
the configured maximum, run the atomic script, then turn its failure replies
into typed exceptions (`ProductNotFoundError`, `LimitExceededError`). -/
def update_quantity (cfg : Config) (st : Store) (cart_id product_id : String)
    (quantity : Int) (is_guest : Bool) : Store × Except SvcErr UpdateReply :=
  if quantity < 0 then (st, .error .validationErr)
  else if quantity > cfg.MAX_QUANTITY_PER_ITEM then
    (st, .error (.limitExceeded cfg.MAX_QUANTITY_PER_ITEM))
  else
    match UPDATE_QUANTITY_SCRIPT (cartKeyOf cart_id) product_id quantity
        cfg.MAX_QUANTITY_PER_ITEM (ttlOf cfg is_guest) st with
    | (st1, .error _) => (st1, .error .redisConnErr)
    | (st1, .ok r) =>
      match r with
      | .productNotFound => (st1, .error (.productNotFoundErr product_id))
      | .maxQuantityExceeded mx _ => (st1, .error (.limitExceeded mx))
      | other => (st1, .ok other)

/-- `CartService.remove_item`: delete the hash field directly; when something
was removed, refresh the TTL if entries remain, else delete the cart key. -/
def remove_item (cfg : Config) (st : Store) (cart_id product_id : String)
    (is_guest : Bool) : Store × Bool :=
  let cart_key := cartKeyOf cart_id
  let p := st.hdel cart_key product_id
  if p.2 > 0 then
    if p.1.hlen cart_key > 0 then
      (p.1.expire cart_key (ttlOf cfg is_guest), true)
    else ((p.1.del cart_key).1, true)
  else (p.1, false)

/-- `CartService.clear_cart`. -/
def clear_cart (st : Store) (cart_id : String) : Store × Bool :=
  let p := st.del (cartKeyOf cart_id)
  (p.1, p.2 > 0)

/-- `CartService.merge_carts`: validate the policy name, short-circuit when
the source key does not exist, else run the atomic merge script. -/
def merge_carts (cfg : Config) (st : Store)
    (source_cart_id target_cart_id conflict_resolution : String) :
    Store × Except SvcErr MergeReply :=
  if conflict_resolution = "sum" ∨ conflict_resolution = "last-write-wins" then
    let source_key := cartKeyOf source_cart_id
    let target_key := cartKeyOf target_cart_id
    if st.existsKey source_key then
      match MERGE_CART_SCRIPT source_key target_key conflict_resolution
          cfg.CART_TTL_SECONDS st with
      | (st1, .error _) => (st1, .error .redisConnErr)
      | (st1, .ok r) => (st1, .ok r)
    else (st, .ok .emptySource)
  else (st, .error .validationErr)

end CartService

/-! ### Cart read path (`CartService.get_cart`)

Per entry, the Python code runs `json.loads`, two dict subscripts, a
`Decimal(str(...))` conversion and pydantic validation, inside a handler that
catches only `json.JSONDecodeError` and `KeyError`.  `decodeEntry` classifies
each stored payload accordingly: `skipped` for the two caught exception
classes, `crashed` for any exception the handler does not catch
(`TypeError` on subscripting a scalar, `decimal.InvalidOperation`, pydantic
validation errors). -/

/-- A decoded cart item (`app.models.CartItem`). -/
structure CartItemM where
  product_id : String
  quantity : Int
  price_snapshot : Dec
  variant : Option String
deriving DecidableEq

/-- `app.models.CartResponse`. -/
structure CartResponseM where
  cart_id : String
  items : List (String × CartItemM)
  total_items : Int
  total_price : Dec
deriving DecidableEq

/-- `Decimal(str(v))` on a decoded JSON scalar. -/
def pyDecimalOf : JVal → Option Dec
  | .jstr s => parseDec s
  | .jnum n => some ⟨n, 0⟩
  | .jnull => none

/-- Pydantic coercion of a decoded JSON scalar to `int`. -/
def pyIntOf : JVal → Option Int
  | .jnum n => some n
  | .jstr s => parseIntStr s
  | .jnull => none

/-- Pydantic validation of the optional `variant` string
(`item_data.get("variant")`). -/
def pyVariantOf : Option JVal → Option (Option String)
  | none => some none
  | some .jnull => some none
  | some (.jstr s) => some (some s)
  | some (.jnum _) => none

/-- How `get_cart` fares on one stored entry. -/
inductive DecodeOutcome where
  | okItem : CartItemM → DecodeOutcome
  | skipped : DecodeOutcome
  | crashed : DecodeOutcome
deriving DecidableEq

/-- One iteration of `get_cart`'s decoding loop over an entry. -/
def decodeEntry (pid : String) (p : Payload) : DecodeOutcome :=
  match p with
  | .malformed _ => .skipped
  | .scalar _ => .crashed
  | .obj fs =>
    match getField fs "quantity" with
    | none => .skipped
    | some qv =>
      match getField fs "price_snapshot" with
      | none => .skipped
      | some pv =>
        match pyDecimalOf pv with
        | none => .crashed
        | some price =>
          match pyIntOf qv with
          | none => .crashed
          | some q =>
            if q < 0 then .crashed
            else
              match pyVariantOf (getField fs "variant") with
              | none => .crashed
              | some var => .okItem ⟨pid, q, price, var⟩

/-- The accumulation loop of `get_cart`: a crashed entry aborts the whole
read, a skipped entry contributes nothing, a decoded entry is appended and
added into both totals (`total_price += price_snapshot * quantity`). -/
def getCartLoop (cid : String) :
    List (String × Payload) → List (String × CartItemM) → Int → Dec →
    Except SvcErr CartResponseM
  | [], acc, ti, tp => .ok ⟨cid, acc.reverse, ti, tp⟩
  | (pid, p) :: rest, acc, ti, tp =>
    match decodeEntry pid p with
    | .crashed => .error .uncaughtErr
    | .skipped => getCartLoop cid rest acc ti tp
    | .okItem it =>
      getCartLoop cid rest ((pid, it) :: acc) (ti + it.quantity)
        (Dec.add tp (Dec.mul it.price_snapshot ⟨it.quantity, 0⟩))

/-- `CartService.get_cart`: distinct not-found condition for an absent key, a
fixed empty response for an existing empty hash, else the decoding loop. -/
def CartService.get_cart (st : Store) (cart_id : String) :
    Except SvcErr CartResponseM :=
  let cart_key := cartKeyOf cart_id
  if st.existsKey cart_key then
    let items_data := st.hgetall cart_key
    if items_data.isEmpty then .ok ⟨cart_id, [], 0, ⟨0, 0⟩⟩
    else getCartLoop cart_id items_data [] 0 ⟨0, 0⟩
  else .error (.cartNotFoundErr cart_id)

/-! ### Transport retry (`RedisClient._retry_with_backoff`)

One underlying call per attempt; `ConnectionError`/`TimeoutError` are
transient and retried, any other `RedisError` propagates immediately; between
attempts the client sleeps `backoff + jitter` with
`jitter = uniform(0, backoff * 0.1)` and then doubles the backoff up to
`max_backoff`.  The reconnection attempt between retries has no observable
effect in the model.  Float arithmetic on the backoff (`* 2`, `min`) is exact,
so the decimal model mirrors it exactly. -/

/-- The outcome of one underlying Redis call. -/
inductive AttemptResult (α : Type) where
  | ok : α → AttemptResult α
  | transientErr : String → AttemptResult α
  | redisErr : String → AttemptResult α

/-- The `RedisConnectionError` a retried operation can surface:
budget exhaustion wrapping the last transient cause, an immediately fatal
server error, or the implicit `None` return when the budget is zero. -/
inductive RetryFailure where
  | failedAfterRetries : Nat → String → RetryFailure
  | redisError : String → RetryFailure
  | noneReturned : RetryFailure
deriving DecidableEq

/-- The retry loop: `attempt` is the loop index, the second argument the
number of attempts left, the last the current backoff.  Returns the result
plus the list of delays slept. -/
def retryGo {α : Type} (f : Nat → AttemptResult α) (jit : Nat → Dec)
    (max_retries : Nat) (max_backoff : Dec) :
    Nat → Nat → Dec → Except RetryFailure α × List Dec
  | _, 0, _ => (.error .noneReturned, [])
  | attempt, remaining + 1, backoff =>
    match f attempt with
    | .ok a => (.ok a, [])
    | .redisErr m => (.error (.redisError m), [])
    | .transientErr m =>
      if remaining = 0 then (.error (.failedAfterRetries max_retries m), [])
      else
        let d := Dec.add backoff (jit attempt)
        let r := retryGo f jit max_retries max_backoff (attempt + 1) remaining
          (Dec.minD (Dec.mul backoff ⟨2, 0⟩) max_backoff)
        (r.1, d :: r.2)

/-- `RedisClient._retry_with_backoff` with explicit budget and bounds. -/
def retryWithBackoff {α : Type} (f : Nat → AttemptResult α) (jit : Nat → Dec)
    (max_retries : Nat) (initial_backoff max_backoff : Dec) :
    Except RetryFailure α × List Dec :=
  retryGo f jit max_retries max_backoff 0 max_retries initial_backoff

/-- The defaults used by every wrapper method: 3 attempts, initial backoff
`0.1`, maximum backoff `2.0`. -/
def retryDefault {α : Type} (f : Nat → AttemptResult α) (jit : Nat → Dec) :
    Except RetryFailure α × List Dec :=
  retryWithBackoff f jit 3 ⟨1, 1⟩ ⟨2, 0⟩

/-- The deterministic part of the backoff sequence:
`0.1, min(0.2, 2), min(0.4, 2), ...`. -/
def backoffSeq : Nat → Dec
  | 0 => ⟨1, 1⟩
  | n + 1 => Dec.minD (Dec.mul (backoffSeq n) ⟨2, 0⟩) ⟨2, 0⟩

/-! ### Invariants -/

/-- No key maps to a zero-length hash. -/
def noEmptyHash (st : Store) : Bool :=
  st.hashes.all (fun kv => !kv.2.isEmpty)

/-- Whether a stored entry's quantity respects the per-item limit (entries
without a JSON-integer quantity impose nothing). -/
def qtyOK (maxQ : Int) (p : Payload) : Bool :=
  match entryQtyJ p with
  | some q => decide (q ≤ maxQ)
  | none => true

/-- Both configured bounds hold everywhere: every hash has at most `maxI`
fields and every stored quantity is at most `maxQ`. -/
def cartBounds (maxI maxQ : Int) (st : Store) : Bool :=
  st.hashes.all (fun kv =>
    decide ((kv.2.length : Int) ≤ maxI) && kv.2.all (fun fp => qtyOK maxQ fp.2))

/-! ### Specification-side observation functions -/

/-- The entry the merge leaves in the target for a source product, as §4.3
describes it: copied verbatim when the product is source-only; on a conflict,
summed quantity with source price and variant under `sum`, the source entry
verbatim under `last-write-wins`.  `tmap` is the pre-merge target hash. -/
def mergeExpected (policy : String) (tmap : List (String × Payload))
    (pid : String) (p : Payload) : Payload :=
  match getField tmap pid with
  | none => p
  | some tp =>
    if policy = "sum" then sumPayload p (entryQtyInt p + entryQtyInt tp)
    else p

/-- The entries of a cart that decode, with their decoded items. -/
def decodedOf (l : List (String × Payload)) : List (String × CartItemM) :=
  l.filterMap (fun fp =>
    match decodeEntry fp.1 fp.2 with
    | .okItem it => some (fp.1, it)
    | _ => none)

/-- Sum of quantities over decoded items. -/
def sumQtyD (l : List (String × CartItemM)) : Int :=
  (l.map (fun x => x.2.quantity)).sum

/-- Sum of `quantity × price_snapshot` over decoded items, as an exact
rational. -/
def sumPriceD (l : List (String × CartItemM)) : ℚ :=
  (l.map (fun x => (x.2.quantity : ℚ) * x.2.price_snapshot.toRat)).sum

/-- The price of a well-formed stored entry as an exact rational. -/
def entryPriceRat (p : Payload) : ℚ :=
  match p with
  | .obj fs =>
    match getField fs "price_snapshot" with
    | some (.jstr s) => ((parseDec s).getD ⟨0, 0⟩).toRat
    | _ => 0
  | _ => 0

/-! ### Concrete inputs used by witnesses and counterexamples -/

/-- The empty cache. -/
def emptyStore : Store := ⟨[], []⟩

/-- One cart `c` holding product `A` with quantity 2. -/
def storeA2 : Store :=
  ⟨[("cart:c", [("A", encodeItem 2 "19.99" "")])], [("cart:c", 500)]⟩

/-- The worked merge example of §8: target `t` holds `A` (qty 2, price 10);
source `s` holds `A` (qty 3, price 12) and `B` (qty 1, price 5). -/
def mergeExampleStore : Store :=
  ⟨[("cart:t", [("A", encodeItem 2 "10" "")]),
    ("cart:s", [("A", encodeItem 3 "12" ""), ("B", encodeItem 1 "5" "")])],
   [("cart:t", 77), ("cart:s", 42)]⟩

/-- A cart `u` with two products, merged into itself in claim C10. -/
def selfMergeStore : Store :=
  ⟨[("cart:u", [("A", encodeItem 3 "12" ""), ("B", encodeItem 1 "5" "")])],
   [("cart:u", 42)]⟩

/-- Source and target both hold `A` at quantity 60: each cart respects the
default bounds, their `sum`-merge does not. -/
def boundsCexStore : Store :=
  ⟨[("cart:s", [("A", encodeItem 60 "10" "")]),
    ("cart:t", [("A", encodeItem 60 "10" "")])], []⟩

/-- A cart `c1` whose only entry is valid JSON with both required fields but
an unparsable price: `json.loads` and the key lookups succeed, then
`Decimal("oops")` raises `decimal.InvalidOperation`, which `get_cart`'s
handler does not catch. -/
def badPriceStore : Store :=
  ⟨[("cart:c1",
     [("A", Payload.obj [("quantity", JVal.jnum 1),
                         ("price_snapshot", JVal.jstr "oops"),
                         ("variant", JVal.jstr "")])])], []⟩

/-- A cart `c1` with one non-JSON entry (skipped) and one good entry. -/
def skipStore : Store :=
  ⟨[("cart:c1", [("A", Payload.malformed "not json"),
                 ("B", encodeItem 1 "5.00" "")])], []⟩

/-- The cart of §8's pricing example: `A` qty 2 at 19.99, `B` qty 1 at 5.00. -/
def priceExampleStore : Store :=
  ⟨[("cart:c", [("A", encodeItem 2 "19.99" ""), ("B", encodeItem 1 "5.00" "")])],
   [("cart:c", 500)]⟩

/-! ## Association-list and store lemmas -/

theorem getField_setField_self {α : Type} (l : List (String × α)) (f : String)
    (v : α) : getField (setField l f v) f = some v := by
  induction l with
  | nil => simp [setField, getField]
  | cons hd tl ih =>
    by_cases h : hd.1 = f
    · simp [setField, h, getField]
    · simp [setField, h, getField, ih]

theorem getField_setField_ne {α : Type} (l : List (String × α)) {f g : String}
    (v : α) (h : g ≠ f) : getField (setField l f v) g = getField l g := by
  have hfg : f ≠ g := fun hh => h hh.symm
  induction l with
  | nil => simp [setField, getField, hfg]
  | cons hd tl ih =>
    by_cases h1 : hd.1 = f
    · simp [setField, h1, getField, hfg]
    · simp only [setField, if_neg h1, getField]
      by_cases h2 : hd.1 = g <;> simp [h2, ih]

theorem setField_ne_nil {α : Type} (l : List (String × α)) (f : String)
    (v : α) : setField l f v ≠ [] := by
  cases l with
  | nil => simp [setField]
  | cons hd tl =>
    simp only [setField]
    split <;> simp

theorem length_setField {α : Type} (l : List (String × α)) (f : String)
    (v : α) :
    (setField l f v).length =
      if (getField l f).isSome then l.length else l.length + 1 := by
  induction l with
  | nil => simp [setField, getField]
  | cons hd tl ih =>
    by_cases h : hd.1 = f
    · simp [setField, h, getField]
    · simp only [setField, if_neg h, getField, h, if_false, List.length_cons, ih]
      split <;> simp

theorem mem_setField {α : Type} {l : List (String × α)} {f : String} {v : α}
    {x : String × α} (h : x ∈ setField l f v) : x = (f, v) ∨ x ∈ l := by
  induction l with
  | nil => simpa [setField] using h
  | cons hd tl ih =>
    simp only [setField] at h
    by_cases h1 : hd.1 = f
    · rw [if_pos h1] at h
      rcases List.mem_cons.1 h with h2 | h2
      · exact Or.inl h2
      · exact Or.inr (List.mem_cons_of_mem _ h2)
    · rw [if_neg h1] at h
      rcases List.mem_cons.1 h with h2 | h2
      · exact Or.inr (h2 ▸ List.mem_cons_self _ _)
      · rcases ih h2 with h3 | h3
        · exact Or.inl h3
        · exact Or.inr (List.mem_cons_of_mem _ h3)

theorem getField_delField_self {α : Type} (l : List (String × α))
    (f : String) : getField (delField l f) f = none := by
  induction l with
  | nil => simp [delField, getField]
  | cons hd tl ih =>
    rcases hd with ⟨g, w⟩
    by_cases h : g = f
    · simpa [delField, h] using ih
    · simpa [delField, h, getField] using ih

theorem getField_delField_ne {α : Type} (l : List (String × α)) {f g : String}
    (h : g ≠ f) : getField (delField l f) g = getField l g := by
  have hfg : f ≠ g := fun hh => h hh.symm
  induction l with
  | nil => simp [delField]
  | cons hd tl ih =>
    rcases hd with ⟨k, w⟩
    by_cases h1 : k = f
    · have h2 : k ≠ g := fun hh => hfg (h1 ▸ hh)
      simpa [delField, h1, getField, hfg, h2] using ih
    · simp only [delField, if_neg h1, getField]
      by_cases h2 : k = g <;> simp [h2, ih]

theorem mem_delField {α : Type} {l : List (String × α)} {f : String}
    {x : String × α} (h : x ∈ delField l f) : x ∈ l := by
  induction l with
  | nil => simp [delField] at h
  | cons hd tl ih =>
    rcases hd with ⟨g, w⟩
    by_cases h1 : g = f
    · simp only [delField, if_pos h1] at h
      exact List.mem_cons_of_mem _ (ih h)
    · simp only [delField, if_neg h1] at h
      rcases List.mem_cons.1 h with h2 | h2
      · exact h2 ▸ List.mem_cons_self _ _
      · exact List.mem_cons_of_mem _ (ih h2)

/-- `EXPIRE` never changes the hashes. -/
theorem expire_hashes (st : Store) (k : String) (t : Int) :
    (st.expire k t).hashes = st.hashes := by
  unfold Store.expire
  split <;> rfl

/-- `HSET` never changes the TTLs. -/
theorem hset_ttls (st : Store) (k f : String) (v : Payload) :
    (st.hset k f v).ttls = st.ttls := rfl

/-- After `HSET`, the key exists. -/
theorem existsKey_hset (st : Store) (k f : String) (v : Payload) :
    (st.hset k f v).existsKey k = true := by
  simp [Store.hset, Store.existsKey, getField_setField_self]

/-- `HSET` leaves every other key's hash alone. -/
theorem hset_hashes_ne (st : Store) {k : String} (f : String) (v : Payload)
    {k' : String} (h : k' ≠ k) :
    getField (st.hset k f v).hashes k' = getField st.hashes k' := by
  simp [Store.hset, getField_setField_ne _ _ h]

/-- Reading the written field back after `HSET`. -/
theorem hget_hset_self (st : Store) (k f : String) (v : Payload) :
    (st.hset k f v).hget k f = some v := by
  simp [Store.hset, Store.hget, Store.hgetall, getField_setField_self]

/-- Reading another field after `HSET`. -/
theorem hget_hset_ne (st : Store) (k : String) {f : String} (v : Payload)
    {g : String} (h : g ≠ f) :
    (st.hset k f v).hget k g = st.hget k g := by
  simp [Store.hset, Store.hget, Store.hgetall, getField_setField_self,
    getField_setField_ne _ _ h]

/-- `EXPIRE` changes no hash content. -/
theorem hget_expire (st : Store) (k : String) (t : Int) (j f : String) :
    (st.expire k t).hget j f = st.hget j f := by
  simp [Store.hget, Store.hgetall, expire_hashes]

/-! ## Claim C1: the add-item protocol -/

/-- C1.  For every cart state and every `add_item` invocation with positive
delta (and a decodable existing entry, `existing_qty` being what the script
reads from it): if `existing_qty + delta` exceeds the per-item limit the
script fails with `MAX_QUANTITY_EXCEEDED` and mutates nothing; else if the
product is new and the cart already holds `max_items` distinct products it
fails with `MAX_ITEMS_EXCEEDED` and mutates nothing; otherwise it stores the
record with the summed quantity and the *incoming* price snapshot and variant,
refreshes the cart TTL, and succeeds with the new quantity and
`is_new = (existing_qty == 0)`. -/
theorem add_item_script_spec (st st1 : Store) (r : Except Unit AddReply)
    (key pid : String) (qty : Int) (price variant : String)
    (maxI maxQ ttl : Int) (eqty : Int)
    (_hq : 0 < qty) (hdec : addExistingQty st key pid = some eqty)
    (hrun : ADD_ITEM_SCRIPT key pid qty price variant maxI maxQ ttl st = (st1, r)) :
    (eqty + qty > maxQ →
      st1 = st ∧ r = .ok (.maxQuantityExceeded maxQ (eqty + qty))) ∧
    (eqty + qty ≤ maxQ → eqty = 0 → (st.hlen key : Int) ≥ maxI →
      st1 = st ∧ r = .ok (.maxItemsExceeded maxI (st.hlen key : Int))) ∧
    (eqty + qty ≤ maxQ → (eqty = 0 → (st.hlen key : Int) < maxI) →
      r = .ok (.okAdd (eqty + qty) (decide (eqty = 0))) ∧
      st1.hget key pid = some (encodeItem (eqty + qty) price variant) ∧
      st1.cartTTL key = some ttl ∧
      (∀ f, f ≠ pid → st1.hget key f = st.hget key f) ∧
      (∀ k, k ≠ key → getField st1.hashes k = getField st.hashes k)) := by
  unfold ADD_ITEM_SCRIPT at hrun
  rw [hdec] at hrun
  simp only at hrun
  by_cases h1 : eqty + qty > maxQ
  · rw [if_pos h1] at hrun
    obtain ⟨rfl, rfl⟩ := Prod.mk.injEq .. ▸ hrun
    refine ⟨fun _ => ⟨rfl, rfl⟩, fun h2 => absurd h1 (not_lt.2 h2), fun h2 => absurd h1 (not_lt.2 h2)⟩
  · rw [if_neg h1] at hrun
    by_cases h2 : eqty = 0 ∧ (st.hlen key : Int) ≥ maxI
    · rw [if_pos h2] at hrun
      obtain ⟨rfl, rfl⟩ := Prod.mk.injEq .. ▸ hrun
      exact ⟨fun h3 => absurd h3 h1,
        fun _ _ _ => ⟨rfl, rfl⟩,
        fun _ h3 => absurd (h3 h2.1) (not_lt.2 h2.2)⟩
    · rw [if_neg h2] at hrun
      obtain ⟨rfl, rfl⟩ := Prod.mk.injEq .. ▸ hrun
      refine ⟨fun h3 => absurd h3 h1,
        fun _ h3 h4 => absurd ⟨h3, h4⟩ h2,
        fun _ _ => ⟨rfl, ?_, ?_, ?_, ?_⟩⟩
      · rw [hget_expire]
        exact hget_hset_self st key pid _
      · have hex : (st.hset key pid (encodeItem (eqty + qty) price variant)).existsKey key = true :=
          existsKey_hset ..
        simp [Store.expire, hex, Store.cartTTL, hset_ttls, getField_setField_self]
      · intro f hf
        rw [hget_expire]
        exact hget_hset_ne st key _ hf
      · intro k hk
        rw [expire_hashes]
        exact hset_hashes_ne st _ _ hk

/-- Witness for C1: adding 2 of product `A` at price `19.99` to the empty
cache succeeds as a new item with quantity 2, stores the incoming record and
sets the TTL. -/
theorem add_item_script_spec_witness :
    (0 : Int) < 2 ∧
    (ADD_ITEM_SCRIPT "cart:c" "A" 2 "19.99" "" 200 99 3600 emptyStore).2 =
      .ok (.okAdd 2 true) ∧
    (ADD_ITEM_SCRIPT "cart:c" "A" 2 "19.99" "" 200 99 3600 emptyStore).1.hget
      "cart:c" "A" = some (encodeItem 2 "19.99" "") ∧
    (ADD_ITEM_SCRIPT "cart:c" "A" 2 "19.99" "" 200 99 3600 emptyStore).1.cartTTL
      "cart:c" = some 3600 := by
  have h := add_item_script_spec emptyStore
    (ADD_ITEM_SCRIPT "cart:c" "A" 2 "19.99" "" 200 99 3600 emptyStore).1
    (ADD_ITEM_SCRIPT "cart:c" "A" 2 "19.99" "" 200 99 3600 emptyStore).2
    "cart:c" "A" 2 "19.99" "" 200 99 3600 0 (by decide) (by decide) rfl
  have h3 := h.2.2 (by decide) (fun _ => by decide)
  exact ⟨by decide, h3.1, h3.2.1, h3.2.2.1⟩

/-! ## Claim C3: the update-quantity protocol -/

/-- If deleting a field empties an association list, no other field was
bound in it. -/
theorem getField_eq_none_of_delField_nil {α : Type} {l : List (String × α)}
    {pid : String} (h : delField l pid = []) {f : String} (hf : f ≠ pid) :
    getField l f = none := by
  induction l with
  | nil => rfl
  | cons hd tl ih =>
    rcases hd with ⟨g, w⟩
    by_cases h1 : g = pid
    · rw [delField, if_pos h1] at h
      have h2 : g ≠ f := fun hh => hf (hh ▸ h1)
      rw [getField, if_neg h2]
      exact ih h
    · rw [delField, if_neg h1] at h
      exact absurd h (List.cons_ne_nil _ _)

/-- A key whose hash is non-empty is bound in `hashes`. -/
theorem getField_hashes_eq (st : Store) (k : String) (h : st.hgetall k ≠ []) :
    getField st.hashes k = some (st.hgetall k) := by
  unfold Store.hgetall at *
  cases hx : getField st.hashes k with
  | none => rw [hx] at h; simp at h
  | some l => rfl

/-- C3.  For every `update_quantity` invocation with `0 ≤ q ≤ max_quantity`
on a product present in the cart (with the stored entry of the canonical
shape): at `q = 0` the entry is deleted, the whole cart key (and its TTL) is
deleted when no entries remain and otherwise the TTL is refreshed, and the
reply is `{quantity = 0, removed = true}`; at `q ≥ 1` only the quantity is
overwritten — the stored price snapshot and variant and all other entries are
untouched — the TTL is refreshed, and the reply is
`{quantity = q, removed = false}`. -/
theorem update_quantity_script_spec (st st1 : Store)
    (r : Except Unit UpdateReply) (key pid : String) (q maxQ ttl : Int)
    (qOld : Int) (pr v : String)
    (hwf : st.hget key pid = some (Payload.obj
      [("quantity", JVal.jnum qOld), ("price_snapshot", JVal.jstr pr),
       ("variant", JVal.jstr v)]))
    (hq0 : 0 ≤ q) (hqm : q ≤ maxQ)
    (hrun : UPDATE_QUANTITY_SCRIPT key pid q maxQ ttl st = (st1, r)) :
    (q = 0 →
      r = .ok (.okUpdate 0 true) ∧
      st1.hget key pid = none ∧
      (∀ f, f ≠ pid → st1.hget key f = st.hget key f) ∧
      (delField (st.hgetall key) pid = [] →
        getField st1.hashes key = none ∧ st1.cartTTL key = none) ∧
      (delField (st.hgetall key) pid ≠ [] →
        getField st1.hashes key = some (delField (st.hgetall key) pid) ∧
        st1.cartTTL key = some ttl)) ∧
    (1 ≤ q →
      r = .ok (.okUpdate q false) ∧
      st1.hget key pid = some (Payload.obj
        [("quantity", JVal.jnum q), ("price_snapshot", JVal.jstr pr),
         ("variant", JVal.jstr v)]) ∧
      (∀ f, f ≠ pid → st1.hget key f = st.hget key f) ∧
      (∀ k2, k2 ≠ key → getField st1.hashes k2 = getField st.hashes k2) ∧
      st1.cartTTL key = some ttl) := by
  have hne : st.hgetall key ≠ [] := by
    intro hnil
    rw [Store.hget, hnil] at hwf
    exact Option.noConfusion hwf
  have hsome := getField_hashes_eq st key hne
  unfold UPDATE_QUANTITY_SCRIPT at hrun
  rw [hwf] at hrun
  simp only at hrun
  rw [if_neg (not_lt.2 hq0), if_neg (not_lt.2 hqm)] at hrun
  simp only [luaFields] at hrun
  simp only [getField] at hrun
  simp at hrun
  by_cases hq : q = 0
  · rw [if_pos hq] at hrun
    unfold Store.hdel at hrun
    rw [hsome] at hrun
    simp only at hrun
    have hlen1 : (Store.mk (setField st.hashes key (delField (st.hgetall key) pid)) st.ttls).hlen key
        = (delField (st.hgetall key) pid).length := by
      simp [Store.hlen, Store.hgetall, getField_setField_self]
    rw [hlen1] at hrun
    by_cases hD : delField (st.hgetall key) pid = []
    · rw [hD] at hrun
      simp only [List.length_nil, lt_irrefl, if_false, reduceIte] at hrun
      obtain ⟨rfl, rfl⟩ := Prod.mk.injEq .. ▸ hrun
      refine ⟨fun _ => ⟨rfl, ?_, ?_, fun _ => ⟨?_, ?_⟩, fun hcon => absurd hD hcon⟩,
        fun h1 => absurd hq (by intro hh; rw [hh] at h1; exact absurd h1 (by norm_num))⟩
      · simp [Store.hget, Store.hgetall, Store.del, hD, getField_delField_self,
          getField]
      · intro f hf
        have h2 : getField (st.hgetall key) f = none :=
          getField_eq_none_of_delField_nil hD hf
        rw [Store.hgetall] at h2
        simp [Store.hget, Store.hgetall, Store.del, getField_delField_self, h2,
          getField]
      · simp [Store.del, getField_delField_self]
      · simp [Store.cartTTL, Store.del, getField_delField_self]
    · have hpos : 0 < (delField (st.hgetall key) pid).length := List.length_pos.2 hD
      rw [if_pos hpos] at hrun
      obtain ⟨rfl, rfl⟩ := Prod.mk.injEq .. ▸ hrun
      have hex : (Store.mk (setField st.hashes key (delField (st.hgetall key) pid)) st.ttls).existsKey key = true := by
        simp [Store.existsKey, getField_setField_self]
      refine ⟨fun _ => ⟨rfl, ?_, ?_, fun hcon => absurd hcon hD, fun _ => ⟨?_, ?_⟩⟩,
        fun h1 => absurd hq (by intro hh; rw [hh] at h1; exact absurd h1 (by norm_num))⟩
      · rw [hget_expire]
        simp [Store.hget, Store.hgetall, getField_setField_self, getField_delField_self]
      · intro f hf
        rw [hget_expire]
        simp only [Store.hget, Store.hgetall, getField_setField_self, Option.getD_some]
        exact getField_delField_ne _ hf
      · rw [expire_hashes]
        exact getField_setField_self ..
      · simp [Store.expire, hex, Store.cartTTL, getField_setField_self]
  · rw [if_neg hq] at hrun
    obtain ⟨rfl, rfl⟩ := Prod.mk.injEq .. ▸ hrun
    have hex : (st.hset key pid (Payload.obj
        [("quantity", JVal.jnum q), ("price_snapshot", JVal.jstr pr),
         ("variant", JVal.jstr v)])).existsKey key = true := existsKey_hset ..
    refine ⟨fun hcon => absurd hcon hq, fun _ => ⟨rfl, ?_, ?_, ?_, ?_⟩⟩
    · rw [hget_expire]
      exact hget_hset_self ..
    · intro f hf
      rw [hget_expire]
      exact hget_hset_ne st key _ hf
    · intro k2 hk
      rw [expire_hashes]
      exact hset_hashes_ne st _ _ hk
    · simp [Store.expire, hex, Store.cartTTL, hset_ttls, getField_setField_self]

/-- Witness for C3: updating product `A` of the example cart from quantity 2
to 5 overwrites only the quantity, keeps the stored price `19.99` and leaves
product `B` untouched. -/
theorem update_quantity_script_spec_witness :
    (UPDATE_QUANTITY_SCRIPT "cart:c" "A" 5 99 500 priceExampleStore).2 =
      .ok (.okUpdate 5 false) ∧
    (UPDATE_QUANTITY_SCRIPT "cart:c" "A" 5 99 500 priceExampleStore).1.hget
      "cart:c" "A" = some (Payload.obj
        [("quantity", JVal.jnum 5), ("price_snapshot", JVal.jstr "19.99"),
         ("variant", JVal.jstr "")]) ∧
    (UPDATE_QUANTITY_SCRIPT "cart:c" "A" 5 99 500 priceExampleStore).1.hget
      "cart:c" "B" = priceExampleStore.hget "cart:c" "B" := by
  have h := update_quantity_script_spec priceExampleStore
    (UPDATE_QUANTITY_SCRIPT "cart:c" "A" 5 99 500 priceExampleStore).1
    (UPDATE_QUANTITY_SCRIPT "cart:c" "A" 5 99 500 priceExampleStore).2
    "cart:c" "A" 5 99 500 2 "19.99" "" (by decide) (by decide) (by decide) rfl
  have h2 := h.2 (by decide)
  exact ⟨h2.1, h2.2.1, h2.2.2.1 "B" (by decide)⟩

/-! ## Claim C6: absence check versus limit check in update_quantity -/

/-- Counterexample to C6 as stated: product `B` is absent from cart `c`, yet
`update_quantity` with quantity `100 > 99` surfaces `LimitExceededError` from
the service-level prevalidation — not `ProductNotFound` — because the limit
check runs before any cache access. -/
theorem update_quantity_limit_before_absence_cex :
    storeA2.hget "cart:c" "B" = none ∧
    (CartService.update_quantity defaultConfig storeA2 "c" "B" 100 false).2 =
      .error (.limitExceeded 99) ∧
    (CartService.update_quantity defaultConfig storeA2 "c" "B" 100 false).2 ≠
      .error (.productNotFoundErr "B") := by decide

/-- C6 amended.  For an absent product, `update_quantity` fails with
`ProductNotFound` for every quantity the prevalidation admits
(`0 ≤ q ≤ max_quantity_per_item`) and leaves the store unchanged; the atomic
script itself decides absence first for *every* quantity it receives,
including `q > max_quantity_per_item` — but the service never forwards such a
quantity. -/
theorem update_quantity_absent_product_spec :
    (∀ (cfg : Config) (st : Store) (cid pid : String) (q : Int) (g : Bool),
      0 ≤ q → q ≤ cfg.MAX_QUANTITY_PER_ITEM →
      st.hget (cartKeyOf cid) pid = none →
      CartService.update_quantity cfg st cid pid q g =
        (st, .error (.productNotFoundErr pid))) ∧
    (∀ (st : Store) (key pid : String) (q maxQ ttl : Int),
      st.hget key pid = none →
      UPDATE_QUANTITY_SCRIPT key pid q maxQ ttl st = (st, .ok .productNotFound)) := by
  have hscript : ∀ (st : Store) (key pid : String) (q maxQ ttl : Int),
      st.hget key pid = none →
      UPDATE_QUANTITY_SCRIPT key pid q maxQ ttl st = (st, .ok .productNotFound) := by
    intro st key pid q maxQ ttl habs
    unfold UPDATE_QUANTITY_SCRIPT
    rw [habs]
  refine ⟨?_, hscript⟩
  intro cfg st cid pid q g h0 hm habs
  unfold CartService.update_quantity
  rw [if_neg (not_lt.2 h0), if_neg (not_lt.2 hm),
    hscript st (cartKeyOf cid) pid q cfg.MAX_QUANTITY_PER_ITEM (ttlOf cfg g) habs]

/-- Witness for the amended C6: on the concrete cart holding only `A`,
updating absent `B` with an in-range quantity yields `ProductNotFound`, and
the bare script reports `PRODUCT_NOT_FOUND` even for quantity 100. -/
theorem update_quantity_absent_product_spec_witness :
    CartService.update_quantity defaultConfig storeA2 "c" "B" 50 false =
      (storeA2, .error (.productNotFoundErr "B")) ∧
    UPDATE_QUANTITY_SCRIPT "cart:c" "B" 100 99 500 storeA2 =
      (storeA2, .ok .productNotFound) :=
  ⟨update_quantity_absent_product_spec.1 defaultConfig storeA2 "c" "B" 50 false
      (by decide) (by decide) (by decide),
    update_quantity_absent_product_spec.2 storeA2 "cart:c" "B" 100 99 500
      (by decide)⟩

/-! ## Claim C5: no operation leaves a zero-length hash -/

theorem getField_mem {α : Type} {l : List (String × α)} {k : String} {v : α}
    (h : getField l k = some v) : (k, v) ∈ l := by
  induction l with
  | nil => exact Option.noConfusion h
  | cons hd tl ih =>
    rcases hd with ⟨g, w⟩
    by_cases h1 : g = k
    · rw [getField, if_pos h1] at h
      subst h1
      exact (Option.some.inj h) ▸ List.mem_cons_self _ _
    · rw [getField, if_neg h1] at h
      exact List.mem_cons_of_mem _ (ih h)

theorem mem_delField_ne {α : Type} {l : List (String × α)} {f : String}
    {x : String × α} (h : x ∈ delField l f) : x.1 ≠ f := by
  induction l with
  | nil => simp [delField] at h
  | cons hd tl ih =>
    rcases hd with ⟨g, w⟩
    by_cases h1 : g = f
    · rw [delField, if_pos h1] at h
      exact ih h
    · rw [delField, if_neg h1] at h
      rcases List.mem_cons.1 h with h2 | h2
      · rw [h2]
        exact h1
      · exact ih h2

theorem delField_of_getField_none {α : Type} {l : List (String × α)}
    {f : String} (h : getField l f = none) : delField l f = l := by
  induction l with
  | nil => rfl
  | cons hd tl ih =>
    rcases hd with ⟨g, w⟩
    by_cases h1 : g = f
    · rw [getField, if_pos h1] at h
      exact Option.noConfusion h
    · rw [getField, if_neg h1] at h
      rw [delField, if_neg h1, ih h]

/-- The invariant as a proposition over the bindings. -/
theorem noEmptyHash_iff (st : Store) :
    noEmptyHash st = true ↔ ∀ kv ∈ st.hashes, kv.2 ≠ [] := by
  simp [noEmptyHash, List.all_eq_true, List.isEmpty_iff]

/-- `HSET` preserves the invariant: the written hash is never empty. -/
theorem noEmptyHash_hset {st : Store} (k f : String) (v : Payload)
    (h : noEmptyHash st = true) : noEmptyHash (st.hset k f v) = true := by
  rw [noEmptyHash_iff] at h ⊢
  intro kv hkv
  rcases mem_setField hkv with h1 | h1
  · rw [h1]
    exact setField_ne_nil _ _ _
  · exact h kv h1

/-- `EXPIRE` preserves the invariant (hashes untouched). -/
theorem noEmptyHash_expire {st : Store} (k : String) (t : Int)
    (h : noEmptyHash st = true) : noEmptyHash (st.expire k t) = true := by
  rw [noEmptyHash_iff] at h ⊢
  rw [expire_hashes]
  exact h

/-- `DEL` preserves the invariant (bindings only disappear). -/
theorem noEmptyHash_del {st : Store} (k : String)
    (h : noEmptyHash st = true) : noEmptyHash (st.del k).1 = true := by
  rw [noEmptyHash_iff] at h ⊢
  intro kv hkv
  exact h kv (mem_delField hkv)

/-- The add-item script preserves the invariant on every path. -/
theorem noEmptyHash_add (st : Store) (key pid : String) (qty : Int)
    (price variant : String) (maxI maxQ ttl : Int)
    (h : noEmptyHash st = true) :
    noEmptyHash (ADD_ITEM_SCRIPT key pid qty price variant maxI maxQ ttl st).1
      = true := by
  unfold ADD_ITEM_SCRIPT
  cases addExistingQty st key pid with
  | none => exact h
  | some eqty =>
    simp only
    split
    · exact h
    · split
      · exact h
      · exact noEmptyHash_expire _ _ (noEmptyHash_hset _ _ _ h)

/-- The update-quantity script preserves the invariant on every path: the
`q = 0` branch deletes the cart key itself whenever the hash would be left
empty. -/
theorem noEmptyHash_update (st : Store) (key pid : String) (q maxQ ttl : Int)
    (h : noEmptyHash st = true) :
    noEmptyHash (UPDATE_QUANTITY_SCRIPT key pid q maxQ ttl st).1 = true := by
  unfold UPDATE_QUANTITY_SCRIPT
  cases hg : st.hget key pid with
  | none => exact h
  | some p =>
    simp only
    split
    · exact h
    · split
      · exact h
      · cases luaFields p with
        | none => exact h
        | some fs =>
          simp only
          split
          · -- q = 0: HDEL, then EXPIRE or DEL depending on the remaining count
            have hne : st.hgetall key ≠ [] := by
              intro hnil
              rw [Store.hget, hnil] at hg
              exact Option.noConfusion hg
            have hsome := getField_hashes_eq st key hne
            unfold Store.hdel
            rw [hsome]
            simp only
            split
            · -- entries remain: the surviving hash is the non-empty delField
              rename_i hlenpos
              apply noEmptyHash_expire
              rw [noEmptyHash_iff]
              intro kv hkv
              rcases mem_setField hkv with h1 | h1
              · rw [h1]
                intro hnil2
                have hD : delField (st.hgetall key) pid = [] := hnil2
                rw [Store.hlen, Store.hgetall, getField_setField_self] at hlenpos
                rw [hD] at hlenpos
                simp at hlenpos
              · exact (noEmptyHash_iff st).1 h kv h1
            · -- no entries remain: the whole key is deleted by DEL
              rw [noEmptyHash_iff]
              intro kv hkv
              simp only [Store.del] at hkv
              have hne2 := mem_delField_ne hkv
              rcases mem_setField (mem_delField hkv) with h1 | h1
              · exact absurd (congrArg Prod.fst h1) hne2
              · exact (noEmptyHash_iff st).1 h kv h1
          · exact noEmptyHash_expire _ _ (noEmptyHash_hset _ _ _ h)

/-- The merge loop preserves the invariant: it only ever writes fields. -/
theorem noEmptyHash_mergeLoop (tK pol : String)
    (tmap : List (String × Payload)) :
    ∀ (src : List (String × Payload)) (st : Store) (m c : Nat),
    noEmptyHash st = true →
    noEmptyHash (mergeLoop tK pol tmap src st m c).1 = true := by
  intro src
  induction src with
  | nil => intro st m c h; exact h
  | cons hd tl ih =>
    intro st m c h
    rcases hd with ⟨pid, raw⟩
    unfold mergeLoop
    cases luaQtyOf raw with
    | none => exact h
    | some sq =>
      simp only
      cases getField tmap pid with
      | some tp =>
        simp only
        cases luaQtyOf tp with
        | none => exact h
        | some tq =>
          simp only
          exact ih _ _ _ (noEmptyHash_hset _ _ _ h)
      | none =>
        simp only
        exact ih _ _ _ (noEmptyHash_hset _ _ _ h)

/-- The merge script preserves the invariant on every path, including a Lua
error that aborts it mid-loop. -/
theorem noEmptyHash_merge (st : Store) (sk tk pol : String) (ttl : Int)
    (h : noEmptyHash st = true) :
    noEmptyHash (MERGE_CART_SCRIPT sk tk pol ttl st).1 = true := by
  unfold MERGE_CART_SCRIPT
  simp only
  split
  · exact h
  · split
    · rcases hml : mergeLoop tk pol (st.hgetall tk) (st.hgetall sk) st 0 0
        with ⟨st1, r⟩
      have h1 : noEmptyHash st1 = true := by
        have hloop := noEmptyHash_mergeLoop tk pol (st.hgetall tk)
          (st.hgetall sk) st 0 0 h
        rw [hml] at hloop
        exact hloop
      cases r with
      | error e => exact h1
      | ok mc =>
        simp only
        split
        · exact noEmptyHash_del _ (noEmptyHash_expire _ _ h1)
        · exact noEmptyHash_del _ h1
    · exact h

/-- `CartService.remove_item` preserves the invariant: it deletes the cart
key whenever the hash would be left empty. -/
theorem noEmptyHash_remove (cfg : Config) (st : Store) (cid pid : String)
    (g : Bool) (h : noEmptyHash st = true) :
    noEmptyHash (CartService.remove_item cfg st cid pid g).1 = true := by
  unfold CartService.remove_item
  cases hk : getField st.hashes (cartKeyOf cid) with
  | none =>
    simp only [Store.hdel, hk]
    exact h
  | some hh =>
    simp only [Store.hdel, hk]
    by_cases hf : (getField hh pid).isSome
    · simp only [hf, if_true, reduceIte]
      split
      · split
        · rename_i hlenpos
          apply noEmptyHash_expire
          rw [noEmptyHash_iff]
          intro kv hkv
          rcases mem_setField hkv with h1 | h1
          · rw [h1]
            intro hnil2
            have hD : delField hh pid = [] := hnil2
            rw [Store.hlen, Store.hgetall, getField_setField_self] at hlenpos
            rw [hD] at hlenpos
            simp at hlenpos
          · exact (noEmptyHash_iff st).1 h kv h1
        · rw [noEmptyHash_iff]
          intro kv hkv
          simp only [Store.del] at hkv
          have hne2 := mem_delField_ne hkv
          rcases mem_setField (mem_delField hkv) with h1 | h1
          · exact absurd (congrArg Prod.fst h1) hne2
          · exact (noEmptyHash_iff st).1 h kv h1
      · rename_i hcon
        simp at hcon
    · simp only [hf, if_false, reduceIte]
      split
      · rename_i hcon
        simp at hcon
      · rw [noEmptyHash_iff]
        intro kv hkv
        rcases mem_setField hkv with h1 | h1
        · rw [h1]
          rw [delField_of_getField_none (Option.not_isSome_iff_eq_none.1 hf)]
          have hmem := getField_mem hk
          exact (noEmptyHash_iff st).1 h _ hmem
        · exact (noEmptyHash_iff st).1 h kv h1

/-- C5.  Every mutating operation — add_item, update_quantity, remove_item,
clear_cart and merge_carts — preserves the invariant that a key with a
zero-field hash does not exist: empty carts are deleted, never left behind. -/
theorem no_empty_hash_invariant (st : Store) (h : noEmptyHash st = true)
    (cfg : Config) (key pid cid : String) (qty : Int) (price variant : String)
    (maxI maxQ ttl q : Int) (sk tk pol : String) (g : Bool) :
    noEmptyHash (ADD_ITEM_SCRIPT key pid qty price variant maxI maxQ ttl st).1
      = true ∧
    noEmptyHash (UPDATE_QUANTITY_SCRIPT key pid q maxQ ttl st).1 = true ∧
    noEmptyHash (CartService.remove_item cfg st cid pid g).1 = true ∧
    noEmptyHash (CartService.clear_cart st cid).1 = true ∧
    noEmptyHash (MERGE_CART_SCRIPT sk tk pol ttl st).1 = true :=
  ⟨noEmptyHash_add st key pid qty price variant maxI maxQ ttl h,
   noEmptyHash_update st key pid q maxQ ttl h,
   noEmptyHash_remove cfg st cid pid g h,
   noEmptyHash_del _ h,
   noEmptyHash_merge st sk tk pol ttl h⟩

/-- Witness for C5 at a concrete store: removing the last item of cart `c`
through `update_quantity 0` leaves no empty hash behind (the key is gone),
and the other four operations also preserve the invariant there. -/
theorem no_empty_hash_invariant_witness :
    noEmptyHash storeA2 = true ∧
    (noEmptyHash (UPDATE_QUANTITY_SCRIPT "cart:c" "A" 0 99 500 storeA2).1
        = true ∧
      (UPDATE_QUANTITY_SCRIPT "cart:c" "A" 0 99 500 storeA2).1.existsKey
        "cart:c" = false) ∧
    noEmptyHash (CartService.remove_item defaultConfig storeA2 "c" "A"
      false).1 = true ∧
    noEmptyHash (MERGE_CART_SCRIPT "cart:s" "cart:t" "sum" 3600
      boundsCexStore).1 = true := by
  have h := no_empty_hash_invariant storeA2 (by decide) defaultConfig
    "cart:c" "A" "c" 1 "1" "" 200 99 500 0 "cart:s" "cart:t" "sum" false
  have h2 := no_empty_hash_invariant boundsCexStore (by decide) defaultConfig
    "cart:c" "A" "c" 1 "1" "" 200 99 3600 0 "cart:s" "cart:t" "sum" false
  exact ⟨by decide, ⟨h.2.1, by decide⟩, h.2.2.1, h2.2.2.2.2⟩

/-! ## Claim C2: the configured limits under mutation -/

theorem length_delField_le {α : Type} (l : List (String × α)) (f : String) :
    (delField l f).length ≤ l.length := by
  induction l with
  | nil => simp [delField]
  | cons hd tl ih =>
    rcases hd with ⟨g, w⟩
    by_cases h1 : g = f
    · rw [delField, if_pos h1]
      exact Nat.le_succ_of_le ih
    · rw [delField, if_neg h1]
      simpa using ih

/-- The bounds invariant as a proposition over the bindings. -/
theorem cartBounds_iff (maxI maxQ : Int) (st : Store) :
    cartBounds maxI maxQ st = true ↔
      ∀ kv ∈ st.hashes, ((kv.2.length : Int) ≤ maxI ∧
        ∀ fp ∈ kv.2, qtyOK maxQ fp.2 = true) := by
  simp [cartBounds, List.all_eq_true]

/-- `EXPIRE` does not affect the bounds. -/
theorem cartBounds_expire (maxI maxQ : Int) (st : Store) (k : String)
    (t : Int) : cartBounds maxI maxQ (st.expire k t) = cartBounds maxI maxQ st := by
  unfold cartBounds
  rw [expire_hashes]

/-- The add-item script preserves both configured bounds: the quantity check
guards the written quantity and the item-count check guards cart growth. -/
theorem cartBounds_add (st : Store) (key pid : String) (qty : Int)
    (price variant : String) (maxI maxQ ttl : Int)
    (h : cartBounds maxI maxQ st = true) :
    cartBounds maxI maxQ
      (ADD_ITEM_SCRIPT key pid qty price variant maxI maxQ ttl st).1 = true := by
  unfold ADD_ITEM_SCRIPT
  cases hdec : addExistingQty st key pid with
  | none => exact h
  | some eqty =>
    simp only
    split
    · exact h
    · split
      · exact h
      · rename_i hq hitems
        rw [cartBounds_expire]
        rw [cartBounds_iff] at h ⊢
        intro kv hkv
        rcases mem_setField hkv with h1 | h1
        · rw [h1]
          constructor
          · rw [length_setField]
            by_cases hp : (getField (st.hgetall key) pid).isSome
            · rw [if_pos hp]
              cases hgk : getField st.hashes key with
              | none =>
                exfalso
                rw [Store.hgetall, hgk] at hp
                simp [getField] at hp
              | some hh =>
                have hb := (h _ (getField_mem hgk)).1
                rw [Store.hgetall, hgk]
                simpa using hb
            · rw [if_neg hp]
              have heq0 : eqty = 0 := by
                unfold addExistingQty at hdec
                rw [Store.hget, Option.not_isSome_iff_eq_none.1 hp] at hdec
                exact (Option.some.inj hdec).symm
              have hlt : ((st.hlen key : Nat) : Int) < maxI := by
                by_contra hge
                exact hitems ⟨heq0, not_lt.1 hge⟩
              rw [Store.hlen] at hlt
              push_cast
              omega
          · intro fp hfp
            rcases mem_setField hfp with h2 | h2
            · rw [h2]
              simp [qtyOK, entryQtyJ, encodeItem, getField]
              omega
            · cases hgk : getField st.hashes key with
              | none =>
                rw [Store.hgetall, hgk] at h2
                simp at h2
              | some hh =>
                have hold := (h _ (getField_mem hgk)).2
                rw [Store.hgetall, hgk] at h2
                exact hold fp h2
        · exact h kv h1

/-- The update-quantity script preserves both configured bounds: deletion
only shrinks the cart, and a written quantity has passed the limit check. -/
theorem cartBounds_update (maxI : Int) (st : Store) (key pid : String)
    (q maxQ ttl : Int) (h : cartBounds maxI maxQ st = true) :
    cartBounds maxI maxQ
      (UPDATE_QUANTITY_SCRIPT key pid q maxQ ttl st).1 = true := by
  unfold UPDATE_QUANTITY_SCRIPT
  cases hg : st.hget key pid with
  | none => exact h
  | some p =>
    simp only
    split
    · exact h
    · split
      · exact h
      · rename_i hq0 hqm
        cases luaFields p with
        | none => exact h
        | some fs =>
          simp only
          split
          · -- q = 0 : HDEL then EXPIRE or DEL
            have hne : st.hgetall key ≠ [] := by
              intro hnil
              rw [Store.hget, hnil] at hg
              exact Option.noConfusion hg
            have hsome := getField_hashes_eq st key hne
            unfold Store.hdel
            rw [hsome]
            simp only
            have hmemk : (key, st.hgetall key) ∈ st.hashes := getField_mem hsome
            have hbk := (cartBounds_iff maxI maxQ st).1 h _ hmemk
            split
            · rw [cartBounds_expire]
              rw [cartBounds_iff] at h ⊢
              intro kv hkv
              rcases mem_setField hkv with h1 | h1
              · rw [h1]
                refine ⟨?_, ?_⟩
                · have hlen2 := length_delField_le (st.hgetall key) pid
                  have := hbk.1
                  push_cast at this ⊢
                  omega
                · intro fp hfp
                  exact hbk.2 fp (mem_delField hfp)
              · exact h kv h1
            · rw [cartBounds_iff] at h ⊢
              intro kv hkv
              simp only [Store.del] at hkv
              have hmem2 := mem_delField hkv
              rcases mem_setField hmem2 with h1 | h1
              · exact absurd (congrArg Prod.fst h1) (mem_delField_ne hkv)
              · exact h kv h1
          · -- 1 ≤ q : overwrite in place with a checked quantity
            rw [cartBounds_expire]
            rw [cartBounds_iff] at h ⊢
            intro kv hkv
            rcases mem_setField hkv with h1 | h1
            · rw [h1]
              have hpres : (getField (st.hgetall key) pid).isSome := by
                rw [Store.hget] at hg
                rw [hg]
                rfl
              refine ⟨?_, ?_⟩
              · rw [length_setField, if_pos hpres]
                cases hgk : getField st.hashes key with
                | none =>
                  exfalso
                  rw [Store.hgetall, hgk] at hpres
                  simp [getField] at hpres
                | some hh =>
                  have hb := (h _ (getField_mem hgk)).1
                  rw [Store.hgetall, hgk]
                  simpa using hb
              · intro fp hfp
                rcases mem_setField hfp with h2 | h2
                · rw [h2]
                  simp [qtyOK, entryQtyJ, getField]
                  omega
                · cases hgk : getField st.hashes key with
                  | none =>
                    rw [Store.hgetall, hgk] at h2
                    simp at h2
                  | some hh =>
                    have hold := (h _ (getField_mem hgk)).2
                    rw [Store.hgetall, hgk] at h2
                    exact hold fp h2
            · exact h kv h1

/-- Counterexample to C2 as stated: both carts respect the default bounds
(max 200 items, max quantity 99), the `sum`-merge succeeds, and the resulting
target holds quantity `120 > 99` — the merge script consults neither limit. -/
theorem merge_ignores_limits_cex :
    cartBounds 200 99 boundsCexStore = true ∧
    (MERGE_CART_SCRIPT "cart:s" "cart:t" "sum" 3600 boundsCexStore).2 =
      .ok (.okMerge 1 1 "sum") ∧
    cartBounds 200 99
      (MERGE_CART_SCRIPT "cart:s" "cart:t" "sum" 3600 boundsCexStore).1 = false ∧
    (MERGE_CART_SCRIPT "cart:s" "cart:t" "sum" 3600 boundsCexStore).1.hget
      "cart:t" "A" = some (Payload.obj
        [("quantity", JVal.jnum 120), ("price_snapshot", JVal.jstr "10"),
         ("variant", JVal.jstr "")]) := by decide

/-- C2 amended.  The configured bounds are an invariant of `add_item` and
`update_quantity` (on every path, with the same limits threaded in that the
invariant speaks about); `merge_carts` does not consult them and can break
both. -/
theorem limit_bounds_preserved (st : Store) (maxI maxQ : Int)
    (h : cartBounds maxI maxQ st = true) (key pid : String) (qty : Int)
    (price variant : String) (ttl q : Int) :
    cartBounds maxI maxQ
      (ADD_ITEM_SCRIPT key pid qty price variant maxI maxQ ttl st).1 = true ∧
    cartBounds maxI maxQ
      (UPDATE_QUANTITY_SCRIPT key pid q maxQ ttl st).1 = true :=
  ⟨cartBounds_add st key pid qty price variant maxI maxQ ttl h,
   cartBounds_update maxI st key pid q maxQ ttl h⟩

/-- Witness for the amended C2 on a concrete bounded store. -/
theorem limit_bounds_preserved_witness :
    cartBounds 200 99 storeA2 = true ∧
    cartBounds 200 99
      (ADD_ITEM_SCRIPT "cart:c" "A" 97 "9.99" "" 200 99 500 storeA2).1 = true ∧
    cartBounds 200 99
      (UPDATE_QUANTITY_SCRIPT "cart:c" "A" 99 99 500 storeA2).1 = true := by
  have h := limit_bounds_preserved storeA2 200 99 (by decide) "cart:c" "A" 97
    "9.99" "" 500 99
  exact ⟨by decide, h.1, h.2⟩

/-! ## Exactness lemmas for the decimal model -/

theorem pow10n_eq_pow (n : Nat) : pow10n n = 10 ^ n := by
  induction n with
  | zero => rfl
  | succ k ih => rw [pow10n, ih, pow_succ]; ring

theorem pow10n_pos (n : Nat) : 0 < pow10n n := by
  rw [pow10n_eq_pow]
  positivity

theorem pow10n_cast_ne_zero (n : Nat) : ((pow10n n : ℚ)) ≠ 0 := by
  have := pow10n_pos n
  positivity

theorem pow10n_mul_sub {a s : Nat} (h : a ≤ s) :
    pow10n (s - a) * pow10n a = pow10n s := by
  rw [pow10n_eq_pow, pow10n_eq_pow, pow10n_eq_pow, ← pow_add,
    Nat.sub_add_cancel h]

/-- `Dec.le` agrees with the exact rational order. -/
theorem Dec.le_iff_toRat (a b : Dec) : Dec.le a b ↔ a.toRat ≤ b.toRat := by
  unfold Dec.le Dec.toRat pow10
  rw [div_le_div_iff₀ (by exact_mod_cast pow10n_pos a.scale)
    (by exact_mod_cast pow10n_pos b.scale)]
  constructor
  · intro h
    exact_mod_cast h
  · intro h
    exact_mod_cast h

theorem Dec.toRat_zero : (Dec.toRat ⟨0, 0⟩) = 0 := by
  simp [Dec.toRat]

/-- Decimal addition is exact. -/
theorem Dec.toRat_add (a b : Dec) :
    (Dec.add a b).toRat = a.toRat + b.toRat := by
  unfold Dec.add Dec.toRat pow10
  simp only
  have h1 : a.scale ≤ max a.scale b.scale := le_max_left _ _
  have h2 : b.scale ≤ max a.scale b.scale := le_max_right _ _
  have e1 : (pow10n (max a.scale b.scale - a.scale) : ℚ) * (pow10n a.scale : ℚ)
      = (pow10n (max a.scale b.scale) : ℚ) := by
    rw [← Nat.cast_mul, pow10n_mul_sub h1]
  have e2 : (pow10n (max a.scale b.scale - b.scale) : ℚ) * (pow10n b.scale : ℚ)
      = (pow10n (max a.scale b.scale) : ℚ) := by
    rw [← Nat.cast_mul, pow10n_mul_sub h2]
  rw [div_add_div _ _ (pow10n_cast_ne_zero _) (pow10n_cast_ne_zero _),
    div_eq_div_iff (pow10n_cast_ne_zero _)
      (mul_ne_zero (pow10n_cast_ne_zero _) (pow10n_cast_ne_zero _))]
  push_cast
  linear_combination ((a.units : ℚ) * (pow10n b.scale : ℚ)) * e1 +
    ((b.units : ℚ) * (pow10n a.scale : ℚ)) * e2

/-- Decimal multiplication is exact. -/
theorem Dec.toRat_mul (a b : Dec) :
    (Dec.mul a b).toRat = a.toRat * b.toRat := by
  unfold Dec.mul Dec.toRat
  simp only
  rw [div_mul_div_comm]
  have : (pow10n (a.scale + b.scale) : ℚ)
      = (pow10n a.scale : ℚ) * (pow10n b.scale : ℚ) := by
    rw [← Nat.cast_mul, pow10n_eq_pow, pow10n_eq_pow, pow10n_eq_pow, pow_add]
  rw [this]
  push_cast
  ring_nf

theorem Dec.le_refl (a : Dec) : Dec.le a a := le_of_eq rfl

theorem Dec.minD_le_right (a b : Dec) : Dec.le (Dec.minD a b) b := by
  unfold Dec.minD
  split
  · assumption
  · exact Dec.le_refl b

/-! ## Claim C9: retry exhaustion and backoff -/

/-- C9.  When every one of the 3 attempts fails transiently, the retry wrapper
surfaces exactly one `RedisConnectionError` wrapping the *last* cause, having
slept exactly twice; each slept delay is the current backoff plus its jitter,
the backoff doubles and is capped at the configured maximum `2.0`, and with
jitter in `[0, backoff * 0.1]` every delay lies in
`[backoff, backoff * 1.1]`. -/
theorem retry_exhaustion_spec {α : Type} (f : Nat → AttemptResult α)
    (jit : Nat → Dec) (m0 m1 m2 : String)
    (h0 : f 0 = .transientErr m0) (h1 : f 1 = .transientErr m1)
    (h2 : f 2 = .transientErr m2)
    (hj : ∀ k, Dec.le ⟨0, 0⟩ (jit k) ∧
      Dec.le (jit k) (Dec.mul (backoffSeq k) ⟨1, 1⟩)) :
    retryDefault f jit = (.error (.failedAfterRetries 3 m2),
      [Dec.add (backoffSeq 0) (jit 0), Dec.add (backoffSeq 1) (jit 1)]) ∧
    (∀ k, backoffSeq (k + 1) = Dec.minD (Dec.mul (backoffSeq k) ⟨2, 0⟩) ⟨2, 0⟩) ∧
    (∀ k, Dec.le (backoffSeq k) ⟨2, 0⟩) ∧
    (∀ k, Dec.le (backoffSeq k) (Dec.add (backoffSeq k) (jit k)) ∧
      Dec.le (Dec.add (backoffSeq k) (jit k))
        (Dec.add (backoffSeq k) (Dec.mul (backoffSeq k) ⟨1, 1⟩))) := by
  refine ⟨?_, fun k => rfl, ?_, fun k => ⟨?_, ?_⟩⟩
  case refine_2 =>
    intro k
    cases k with
    | zero => decide
    | succ j => exact Dec.minD_le_right ..
  · show retryGo f jit 3 ⟨2, 0⟩ 0 3 ⟨1, 1⟩ = _
    rw [show (3 : Nat) = 2 + 1 from rfl, retryGo, h0]
    simp only [reduceIte, Nat.succ_ne_zero, if_false]
    rw [show (2 : Nat) = 1 + 1 from rfl, retryGo, h1]
    simp only [reduceIte, Nat.succ_ne_zero, if_false]
    rw [retryGo, h2]
    simp only [reduceIte, if_true]
    rfl
  · rw [Dec.le_iff_toRat, Dec.toRat_add]
    have hz := (Dec.le_iff_toRat _ _).1 (hj k).1
    rw [Dec.toRat_zero] at hz
    linarith
  · rw [Dec.le_iff_toRat, Dec.toRat_add, Dec.toRat_add]
    have hu := (Dec.le_iff_toRat _ _).1 (hj k).2
    linarith

/-- The backoff sequence stays nonnegative. -/
theorem backoffSeq_nonneg (k : Nat) : Dec.le ⟨0, 0⟩ (backoffSeq k) := by
  induction k with
  | zero => decide
  | succ j ih =>
    show Dec.le _ (Dec.minD _ _)
    unfold Dec.minD
    split
    · rw [Dec.le_iff_toRat, Dec.toRat_zero, Dec.toRat_mul]
      have hb := (Dec.le_iff_toRat _ _).1 ih
      rw [Dec.toRat_zero] at hb
      have h2 : (0 : ℚ) ≤ Dec.toRat ⟨2, 0⟩ := by norm_num [Dec.toRat, pow10n]
      exact mul_nonneg hb h2
    · decide

/-- Zero jitter is inside the admissible jitter interval. -/
theorem zero_le_jitter_bound (k : Nat) :
    Dec.le ⟨0, 0⟩ (Dec.mul (backoffSeq k) ⟨1, 1⟩) := by
  rw [Dec.le_iff_toRat, Dec.toRat_zero, Dec.toRat_mul]
  have hb := (Dec.le_iff_toRat _ _).1 (backoffSeq_nonneg k)
  rw [Dec.toRat_zero] at hb
  have h2 : (0 : ℚ) ≤ Dec.toRat ⟨1, 1⟩ := by norm_num [Dec.toRat, pow10n]
  exact mul_nonneg hb h2

/-- Witness for C9: three transient failures in a row surface one
`RedisConnectionError` wrapping the third cause, after sleeping exactly
`0.1` and then `0.2` seconds (zero jitter). -/
theorem retry_exhaustion_spec_witness :
    retryDefault (fun i => if i = 0 then AttemptResult.transientErr (α := Unit) "e0"
        else if i = 1 then .transientErr "e1" else .transientErr "e2")
      (fun _ => ⟨0, 0⟩) =
      (.error (.failedAfterRetries 3 "e2"), [⟨1, 1⟩, ⟨2, 1⟩]) := by
  have h := retry_exhaustion_spec
    (fun i => if i = 0 then AttemptResult.transientErr (α := Unit) "e0"
      else if i = 1 then .transientErr "e1" else .transientErr "e2")
    (fun _ => ⟨0, 0⟩) "e0" "e1" "e2" rfl rfl rfl
    (fun k => ⟨Dec.le_refl _, zero_le_jitter_bound k⟩)
  exact h.1

/-! ## Claims C7 and C8: the cart read path -/

theorem Dec.toRat_int (n : Int) : (Dec.toRat ⟨n, 0⟩) = (n : ℚ) := by
  simp [Dec.toRat, pow10n]

/-- What `get_cart`'s loop computes when no entry crashes: the decoded items
in order, with the totals accumulated exactly. -/
theorem getCartLoop_spec (cid : String) (l : List (String × Payload)) :
    ∀ (acc : List (String × CartItemM)) (ti : Int) (tp : Dec),
    (∀ fp ∈ l, decodeEntry fp.1 fp.2 ≠ .crashed) →
    ∃ resp, getCartLoop cid l acc ti tp = .ok resp ∧
      resp.cart_id = cid ∧
      resp.items = acc.reverse ++ decodedOf l ∧
      resp.total_items = ti + sumQtyD (decodedOf l) ∧
      resp.total_price.toRat = tp.toRat + sumPriceD (decodedOf l) := by
  induction l with
  | nil =>
    intro acc ti tp _
    refine ⟨⟨cid, acc.reverse, ti, tp⟩, rfl, rfl, ?_, ?_, ?_⟩
    · simp [decodedOf]
    · simp [decodedOf, sumQtyD]
    · simp [decodedOf, sumPriceD]
  | cons hd rest ih =>
    intro acc ti tp hnc
    rcases hd with ⟨pid, p⟩
    have hhd : decodeEntry pid p ≠ .crashed := hnc (pid, p) (List.mem_cons_self _ _)
    have hrest : ∀ fp ∈ rest, decodeEntry fp.1 fp.2 ≠ .crashed :=
      fun fp hfp => hnc fp (List.mem_cons_of_mem _ hfp)
    cases hdec : decodeEntry pid p with
    | crashed => exact absurd hdec hhd
    | skipped =>
      obtain ⟨resp, hok, hcid, hitems, hti, htp⟩ := ih acc ti tp hrest
      refine ⟨resp, ?_, hcid, ?_, ?_, ?_⟩
      · rw [getCartLoop, hdec]
        exact hok
      · rw [hitems]
        simp [decodedOf, hdec]
      · rw [hti]
        simp [decodedOf, hdec]
      · rw [htp]
        simp [decodedOf, hdec]
    | okItem it =>
      obtain ⟨resp, hok, hcid, hitems, hti, htp⟩ :=
        ih ((pid, it) :: acc) (ti + it.quantity)
          (Dec.add tp (Dec.mul it.price_snapshot ⟨it.quantity, 0⟩)) hrest
      refine ⟨resp, ?_, hcid, ?_, ?_, ?_⟩
      · rw [getCartLoop, hdec]
        exact hok
      · rw [hitems]
        simp [decodedOf, hdec]
      · rw [hti]
        simp only [decodedOf, List.filterMap_cons, hdec]
        simp [sumQtyD, decodedOf]
        ring
      · rw [htp]
        simp only [decodedOf, List.filterMap_cons, hdec]
        simp [sumPriceD, decodedOf, Dec.toRat_add, Dec.toRat_mul, Dec.toRat_int]
        ring

/-- Counterexample to C7 as stated: cart `c1` exists and its only entry is
valid JSON with both fields present but price `"oops"`; `get_cart` aborts
with an uncaught `decimal.InvalidOperation` instead of skipping the entry. -/
theorem get_cart_crash_cex :
    badPriceStore.existsKey "cart:c1" = true ∧
    CartService.get_cart badPriceStore "c1" = .error .uncaughtErr := by decide

/-- `get_cart` succeeds whenever no entry crashes the decoder, and returns
exactly the decoded entries and their totals. -/
theorem get_cart_ok_of_no_crash (st : Store) (cid : String)
    (hex : st.existsKey (cartKeyOf cid) = true)
    (hnc : ∀ fp ∈ st.hgetall (cartKeyOf cid), decodeEntry fp.1 fp.2 ≠ .crashed) :
    ∃ resp, CartService.get_cart st cid = .ok resp ∧
      resp.items = decodedOf (st.hgetall (cartKeyOf cid)) ∧
      resp.total_items = sumQtyD (decodedOf (st.hgetall (cartKeyOf cid))) ∧
      resp.total_price.toRat =
        sumPriceD (decodedOf (st.hgetall (cartKeyOf cid))) := by
  unfold CartService.get_cart
  dsimp only
  rw [hex]
  simp only [if_true, reduceIte]
  by_cases hemp : (st.hgetall (cartKeyOf cid)).isEmpty = true
  · rw [if_pos hemp]
    have hnil : st.hgetall (cartKeyOf cid) = [] := by
      rwa [List.isEmpty_iff] at hemp
    refine ⟨_, rfl, ?_, ?_, ?_⟩ <;>
      simp [hnil, decodedOf, sumQtyD, sumPriceD, Dec.toRat_zero]
  · rw [if_neg hemp]
    obtain ⟨resp, hok, _, hitems, hti, htp⟩ :=
      getCartLoop_spec cid (st.hgetall (cartKeyOf cid)) [] 0 ⟨0, 0⟩ hnc
    refine ⟨resp, hok, ?_, ?_, ?_⟩
    · simpa using hitems
    · simpa using hti
    · rw [htp, Dec.toRat_zero]
      ring

/-- C7 amended.  Entries that are not JSON at all, or JSON objects missing
`quantity` or `price_snapshot`, are skipped (`json.JSONDecodeError` and
`KeyError` are caught); when every entry is of a non-crashing kind,
`get_cart` succeeds and aggregates exactly over the entries that decode.
Entries whose decoding raises any other exception — unparsable price or
quantity, a JSON scalar, a negative stored quantity — abort the read. -/
theorem get_cart_skip_spec :
    (∀ (pid raw : String), decodeEntry pid (Payload.malformed raw) = .skipped) ∧
    (∀ (pid : String) (fs : List (String × JVal)),
      getField fs "quantity" = none →
      decodeEntry pid (Payload.obj fs) = .skipped) ∧
    (∀ (pid : String) (fs : List (String × JVal)),
      getField fs "price_snapshot" = none →
      decodeEntry pid (Payload.obj fs) = .skipped) ∧
    (∀ (st : Store) (cid : String),
      st.existsKey (cartKeyOf cid) = true →
      (∀ fp ∈ st.hgetall (cartKeyOf cid), decodeEntry fp.1 fp.2 ≠ .crashed) →
      ∃ resp, CartService.get_cart st cid = .ok resp ∧
        resp.items = decodedOf (st.hgetall (cartKeyOf cid)) ∧
        resp.total_items = sumQtyD (decodedOf (st.hgetall (cartKeyOf cid))) ∧
        resp.total_price.toRat =
          sumPriceD (decodedOf (st.hgetall (cartKeyOf cid)))) := by
  refine ⟨fun pid raw => rfl, ?_, ?_, ?_⟩
  · intro pid fs h
    unfold decodeEntry
    simp only
    rw [h]
  · intro pid fs h
    unfold decodeEntry
    simp only
    cases getField fs "quantity" with
    | none => rfl
    | some qv =>
      simp only
      rw [h]
  · exact get_cart_ok_of_no_crash

/-- Witness for the amended C7: the cart holding one non-JSON entry and one
good entry reads back successfully with the corrupt entry skipped. -/
theorem get_cart_skip_spec_witness :
    decodeEntry "A" (Payload.malformed "not json") = .skipped ∧
    (∃ resp, CartService.get_cart skipStore "c1" = .ok resp ∧
      resp.items = decodedOf (skipStore.hgetall "cart:c1") ∧
      resp.total_items = 1) := by
  obtain ⟨resp, hok, hitems, hti, _⟩ :=
    get_cart_skip_spec.2.2.2 skipStore "c1" (by decide) (by decide)
  refine ⟨get_cart_skip_spec.1 "A" "not json", resp, hok, hitems, ?_⟩
  rw [hti]
  decide

theorem sumQtyD_cons (x : String × CartItemM) (l : List (String × CartItemM)) :
    sumQtyD (x :: l) = x.2.quantity + sumQtyD l := by
  simp [sumQtyD]

theorem sumPriceD_cons (x : String × CartItemM) (l : List (String × CartItemM)) :
    sumPriceD (x :: l) =
      (x.2.quantity : ℚ) * x.2.price_snapshot.toRat + sumPriceD l := by
  simp [sumPriceD]

/-- A well-formed stored entry decodes to exactly its stored fields. -/
theorem decodeEntry_wf (pid : String) (p : Payload)
    (h : isWFEntry p = true) :
    ∃ q pr v d, p = Payload.obj
        [("quantity", JVal.jnum q), ("price_snapshot", JVal.jstr pr),
         ("variant", JVal.jstr v)] ∧
      0 ≤ q ∧ parseDec pr = some d ∧
      decodeEntry pid p = .okItem ⟨pid, q, d, some v⟩ ∧
      entryQtyInt p = q ∧ entryPriceRat p = d.toRat := by
  unfold isWFEntry at h
  split at h
  · rename_i q pr v
    rw [Bool.and_eq_true, decide_eq_true_iff, Option.isSome_iff_exists] at h
    obtain ⟨hq, d, hd⟩ := h
    refine ⟨q, pr, v, d, rfl, hq, hd, ?_, ?_, ?_⟩
    · unfold decodeEntry
      simp [getField, pyDecimalOf, pyIntOf, pyVariantOf, hd,
        if_neg (not_lt.2 hq)]
    · rfl
    · simp [entryPriceRat, getField, hd]
  · exact absurd h (by simp)

/-- Totals over well-formed entries, raw-level view. -/
theorem decodedOf_wf (l : List (String × Payload))
    (h : ∀ fp ∈ l, isWFEntry fp.2 = true) :
    sumQtyD (decodedOf l) = (l.map (fun fp => entryQtyInt fp.2)).sum ∧
    sumPriceD (decodedOf l) =
      (l.map (fun fp => (entryQtyInt fp.2 : ℚ) * entryPriceRat fp.2)).sum := by
  induction l with
  | nil => simp [decodedOf, sumQtyD, sumPriceD]
  | cons hd rest ih =>
    rcases hd with ⟨pid, p⟩
    have hhd := h (pid, p) (List.mem_cons_self _ _)
    have hrest := fun fp hfp => h fp (List.mem_cons_of_mem _ hfp)
    obtain ⟨q, pr, v, d, hshape, hq, hd, hdec, hqty, hprice⟩ :=
      decodeEntry_wf pid p hhd
    obtain ⟨ih1, ih2⟩ := ih hrest
    have hcons : decodedOf ((pid, p) :: rest) =
        (pid, (⟨pid, q, d, some v⟩ : CartItemM)) :: decodedOf rest := by
      simp [decodedOf, hdec]
    constructor
    · rw [hcons, sumQtyD_cons, List.map_cons, List.sum_cons]
      dsimp only
      rw [ih1, hqty]
    · rw [hcons, sumPriceD_cons, List.map_cons, List.sum_cons]
      dsimp only
      rw [ih2, hqty, hprice]
/-- C8.  For an absent cart key `get_cart` reports the distinct not-found
condition; for an existing cart whose entries are all well-formed it returns
`total_items = Σ quantity` and `total_price = Σ quantity × price_snapshot`
computed exactly (the rational value of the returned decimal equals the
rational sum — no floating-point error). -/
theorem get_cart_totals_spec (st : Store) (cid : String) :
    (st.existsKey (cartKeyOf cid) = false →
      CartService.get_cart st cid = .error (.cartNotFoundErr cid)) ∧
    (st.existsKey (cartKeyOf cid) = true →
      (∀ fp ∈ st.hgetall (cartKeyOf cid), isWFEntry fp.2 = true) →
      ∃ resp, CartService.get_cart st cid = .ok resp ∧
        resp.total_items =
          ((st.hgetall (cartKeyOf cid)).map (fun fp => entryQtyInt fp.2)).sum ∧
        resp.total_price.toRat =
          ((st.hgetall (cartKeyOf cid)).map
            (fun fp => (entryQtyInt fp.2 : ℚ) * entryPriceRat fp.2)).sum) := by
  constructor
  · intro hex
    unfold CartService.get_cart
    dsimp only
    rw [hex]
    simp
  · intro hex hwf
    have hnc : ∀ fp ∈ st.hgetall (cartKeyOf cid),
        decodeEntry fp.1 fp.2 ≠ .crashed := by
      intro fp hfp
      obtain ⟨q, pr, v, d, _, _, _, hdec, _, _⟩ :=
        decodeEntry_wf fp.1 fp.2 (hwf fp hfp)
      rw [hdec]
      simp
    obtain ⟨resp, hok, _, hti, htp⟩ := get_cart_ok_of_no_crash st cid hex hnc
    obtain ⟨hsq, hsp⟩ := decodedOf_wf (st.hgetall (cartKeyOf cid)) hwf
    exact ⟨resp, hok, by rw [hti, hsq], by rw [htp, hsp]⟩

/-- Witness for C8: the §8 example cart (`A` qty 2 at 19.99, `B` qty 1 at
5.00) reads back with `total_items = 3` and `total_price` exactly `44.98`;
an absent cart id reports not-found. -/
theorem get_cart_totals_spec_witness :
    (∃ resp, CartService.get_cart priceExampleStore "c" = .ok resp ∧
      resp.total_items = 3 ∧ resp.total_price.toRat = 4498 / 100) ∧
    CartService.get_cart priceExampleStore "absent" =
      .error (.cartNotFoundErr "absent") := by
  constructor
  · obtain ⟨resp, hok, hti, htp⟩ :=
      (get_cart_totals_spec priceExampleStore "c").2 (by decide) (by decide)
    refine ⟨resp, hok, ?_, ?_⟩
    · rw [hti]
      decide
    · rw [htp]
      rw [show priceExampleStore.hgetall (cartKeyOf "c") =
        [("A", encodeItem 2 "19.99" ""), ("B", encodeItem 1 "5.00" "")] from rfl]
      rw [List.map_cons, List.map_cons, List.map_nil, List.sum_cons,
        List.sum_cons, List.sum_nil]
      dsimp only
      rw [show entryQtyInt (encodeItem 2 "19.99" "") = 2 from rfl,
        show entryQtyInt (encodeItem 1 "5.00" "") = 1 from rfl,
        show entryPriceRat (encodeItem 2 "19.99" "") = Dec.toRat ⟨1999, 2⟩ from rfl,
        show entryPriceRat (encodeItem 1 "5.00" "") = Dec.toRat ⟨500, 2⟩ from rfl]
      norm_num [Dec.toRat, pow10n]
  · exact (get_cart_totals_spec priceExampleStore "absent").1 (by decide)

/-! ## Claims C4 and C10: the merge protocol -/

theorem getField_isSome_of_mem {α : Type} {l : List (String × α)}
    {pid : String} {p : α} (h : (pid, p) ∈ l) :
    (getField l pid).isSome = true := by
  induction l with
  | nil => simp at h
  | cons hd tl ih =>
    rcases hd with ⟨g, w⟩
    by_cases h1 : g = pid
    · simp [getField, h1]
    · rcases List.mem_cons.1 h with h2 | h2
      · exact absurd (congrArg Prod.fst h2).symm h1
      · simpa [getField, h1] using ih h2

theorem existsKey_hset_mono {st : Store} {j : String} (k f : String)
    (v : Payload) (h : st.existsKey j = true) :
    (st.hset k f v).existsKey j = true := by
  by_cases hj : j = k
  · subst hj
    exact existsKey_hset ..
  · unfold Store.existsKey at h ⊢
    rw [Store.hset]
    simpa [getField_setField_ne _ _ hj] using h

/-- The merge loop never destroys the target key. -/
theorem mergeLoop_existsKey (tK pol : String) (tmap : List (String × Payload)) :
    ∀ (src : List (String × Payload)) (st : Store) (m c : Nat),
    st.existsKey tK = true →
    (mergeLoop tK pol tmap src st m c).1.existsKey tK = true := by
  intro src
  induction src with
  | nil => intro st m c h; exact h
  | cons hd tl ih =>
    intro st m c h
    rcases hd with ⟨pid, raw⟩
    unfold mergeLoop
    cases luaQtyOf raw with
    | none => exact h
    | some sq =>
      simp only
      cases getField tmap pid with
      | some tp =>
        simp only
        cases luaQtyOf tp with
        | none => exact h
        | some tq =>
          simp only
          exact ih _ _ _ (existsKey_hset_mono _ _ _ h)
      | none =>
        simp only
        exact ih _ _ _ (existsKey_hset_mono _ _ _ h)

/-- The Lua quantity read from a well-formed entry is its stored quantity. -/
theorem luaQtyOf_wf (p : Payload) (h : isWFEntry p = true) :
    luaQtyOf p = some (entryQtyInt p) := by
  obtain ⟨q, pr, v, d, hshape, _, _, _, hqty, _⟩ := decodeEntry_wf "x" p h
  subst hshape
  rw [hqty]
  simp [luaQtyOf, luaFields, getField]

/-- Well-formed entries decode on the Lua side (`cjson.decode` succeeds). -/
theorem decodeAllOK_of_wf (l : List (String × Payload))
    (h : ∀ fp ∈ l, isWFEntry fp.2 = true) : decodeAllOK l = true := by
  rw [decodeAllOK, List.all_eq_true]
  intro fp hfp
  have := h fp hfp
  cases hp : fp.2 with
  | malformed raw => rw [hp] at this; simp [isWFEntry] at this
  | scalar v => simp
  | obj fs => simp

/-- What the merge loop computes over well-formed entries: the reply counts
every source entry and every conflict, only the target key's hash changes,
TTLs are untouched, the target key exists afterwards when the source had
entries, products outside the source keep their target entry, and (with
distinct source fields) every source product ends up with exactly its
`mergeExpected` record. -/
theorem mergeLoop_spec (tK pol : String) (tmap : List (String × Payload))
    (hWFt : ∀ fp ∈ tmap, isWFEntry fp.2 = true) :
    ∀ (src : List (String × Payload)) (st : Store) (m c : Nat),
    (∀ fp ∈ src, isWFEntry fp.2 = true) →
    (mergeLoop tK pol tmap src st m c).2 =
      .ok (m + src.length,
           c + src.countP (fun fp => (getField tmap fp.1).isSome)) ∧
    (∀ k, k ≠ tK →
      getField (mergeLoop tK pol tmap src st m c).1.hashes k =
        getField st.hashes k) ∧
    (mergeLoop tK pol tmap src st m c).1.ttls = st.ttls ∧
    (src ≠ [] → (mergeLoop tK pol tmap src st m c).1.existsKey tK = true) ∧
    (∀ pid, pid ∉ src.map Prod.fst →
      (mergeLoop tK pol tmap src st m c).1.hget tK pid = st.hget tK pid) ∧
    ((src.map Prod.fst).Nodup →
      ∀ fp ∈ src, (mergeLoop tK pol tmap src st m c).1.hget tK fp.1 =
        some (mergeExpected pol tmap fp.1 fp.2)) := by
  intro src
  induction src with
  | nil =>
    intro st m c _
    refine ⟨by simp [mergeLoop], fun k _ => rfl, rfl, fun h => absurd rfl h,
      fun pid _ => rfl, fun _ fp hfp => absurd hfp (List.not_mem_nil fp)⟩
  | cons hd rest ih =>
    intro st m c hWFs
    rcases hd with ⟨pid, raw⟩
    have hraw : isWFEntry raw = true := hWFs (pid, raw) (List.mem_cons_self _ _)
    have hrest : ∀ fp ∈ rest, isWFEntry fp.2 = true :=
      fun fp hfp => hWFs fp (List.mem_cons_of_mem _ hfp)
    have hlq := luaQtyOf_wf raw hraw
    -- the value written for this product, and the state the loop recurses on
    unfold mergeLoop
    rw [hlq]
    simp only
    cases htm : getField tmap pid with
    | some tp =>
      have htp : isWFEntry tp = true := hWFt (pid, tp) (getField_mem htm)
      simp only
      rw [luaQtyOf_wf tp htp]
      simp only
      set w := if pol = "sum"
        then sumPayload raw (entryQtyInt raw + entryQtyInt tp) else raw with hw
      obtain ⟨ih1, ih2, ih3, _, ih5, ih6⟩ :=
        ih (st.hset tK pid w) (m + 1) (c + 1) hrest
      refine ⟨?_, ?_, ?_, ?_, ?_, ?_⟩
      · rw [ih1, List.countP_cons]
        simp [htm, Except.ok.injEq, Prod.mk.injEq]
        omega
      · intro k hk
        rw [ih2 k hk, hset_hashes_ne st _ _ hk]
      · rw [ih3, hset_ttls]
      · intro _
        exact mergeLoop_existsKey tK pol tmap rest _ _ _ (existsKey_hset ..)
      · intro pid2 hpid2
        rw [List.map_cons] at hpid2
        have hne1 : pid2 ≠ pid := fun hh => hpid2 (hh ▸ List.mem_cons_self _ _)
        have hne2 : pid2 ∉ rest.map Prod.fst :=
          fun hh => hpid2 (List.mem_cons_of_mem _ hh)
        rw [ih5 pid2 hne2, hget_hset_ne st tK w hne1]
      · intro hnd fp hfp
        rw [List.map_cons] at hnd
        have hnotin : pid ∉ rest.map Prod.fst := (List.nodup_cons.1 hnd).1
        have hndrest : (rest.map Prod.fst).Nodup := (List.nodup_cons.1 hnd).2
        rcases List.mem_cons.1 hfp with h2 | h2
        · rw [h2]
          dsimp only
          rw [ih5 pid hnotin, hget_hset_self]
          unfold mergeExpected
          rw [show (pid, raw).1 = pid from rfl] at *
          rw [htm]
        · exact ih6 hndrest fp h2
    | none =>
      obtain ⟨ih1, ih2, ih3, _, ih5, ih6⟩ :=
        ih (st.hset tK pid raw) (m + 1) c hrest
      refine ⟨?_, ?_, ?_, ?_, ?_, ?_⟩
      · rw [ih1, List.countP_cons]
        simp [htm, Except.ok.injEq, Prod.mk.injEq]
        omega
      · intro k hk
        rw [ih2 k hk, hset_hashes_ne st _ _ hk]
      · rw [ih3, hset_ttls]
      · intro _
        exact mergeLoop_existsKey tK pol tmap rest _ _ _ (existsKey_hset ..)
      · intro pid2 hpid2
        rw [List.map_cons] at hpid2
        have hne1 : pid2 ≠ pid := fun hh => hpid2 (hh ▸ List.mem_cons_self _ _)
        have hne2 : pid2 ∉ rest.map Prod.fst :=
          fun hh => hpid2 (List.mem_cons_of_mem _ hh)
        rw [ih5 pid2 hne2, hget_hset_ne st tK raw hne1]
      · intro hnd fp hfp
        rw [List.map_cons] at hnd
        have hnotin : pid ∉ rest.map Prod.fst := (List.nodup_cons.1 hnd).1
        have hndrest : (rest.map Prod.fst).Nodup := (List.nodup_cons.1 hnd).2
        rcases List.mem_cons.1 hfp with h2 | h2
        · rw [h2]
          dsimp only
          rw [ih5 pid hnotin, hget_hset_self]
          unfold mergeExpected
          rw [htm]
        · exact ih6 hndrest fp h2

theorem hget_del_ne (st : Store) {k : String} (j f : String) (h : j ≠ k) :
    (st.del k).1.hget j f = st.hget j f := by
  simp [Store.del, Store.hget, Store.hgetall, getField_delField_ne _ h]

/-- C4.  For distinct source and target carts with well-formed entries
(source fields distinct): an empty source succeeds trivially with `merged=0`
and mutates nothing; otherwise the reply counts every source entry as merged
and every product present in both as a conflict, the source key and its TTL
are gone, every source product's target entry equals its `mergeExpected`
record (verbatim copy when source-only; under `sum` the summed quantity with
the source's price and variant, under any other policy the source entry
verbatim), target-only products are untouched, and no other key changes. -/
theorem merge_cart_script_spec (st st1 : Store) (r : Except Unit MergeReply)
    (sk tk pol : String) (ttl : Int) (hne : sk ≠ tk)
    (hWFs : ∀ fp ∈ st.hgetall sk, isWFEntry fp.2 = true)
    (hWFt : ∀ fp ∈ st.hgetall tk, isWFEntry fp.2 = true)
    (hNds : ((st.hgetall sk).map Prod.fst).Nodup)
    (hrun : MERGE_CART_SCRIPT sk tk pol ttl st = (st1, r)) :
    (st.hgetall sk = [] → st1 = st ∧ r = .ok .emptySource) ∧
    (st.hgetall sk ≠ [] →
      r = .ok (.okMerge (st.hgetall sk).length
        ((st.hgetall sk).countP
          (fun fp => (getField (st.hgetall tk) fp.1).isSome)) pol) ∧
      getField st1.hashes sk = none ∧
      st1.cartTTL sk = none ∧
      (∀ fp ∈ st.hgetall sk, st1.hget tk fp.1 =
        some (mergeExpected pol (st.hgetall tk) fp.1 fp.2)) ∧
      (∀ fp ∈ st.hgetall tk, fp.1 ∉ (st.hgetall sk).map Prod.fst →
        st1.hget tk fp.1 = st.hget tk fp.1) ∧
      (∀ k, k ≠ sk → k ≠ tk →
        getField st1.hashes k = getField st.hashes k)) := by
  unfold MERGE_CART_SCRIPT at hrun
  dsimp only at hrun
  constructor
  · intro hempty
    rw [hempty] at hrun
    simp only [List.isEmpty_nil, if_true, reduceIte] at hrun
    obtain ⟨rfl, rfl⟩ := Prod.mk.injEq .. ▸ hrun
    exact ⟨rfl, rfl⟩
  · intro hnonempty
    have hemp : ¬ (st.hgetall sk).isEmpty = true := by
      rw [List.isEmpty_iff]
      exact hnonempty
    rw [if_neg hemp, if_pos (decodeAllOK_of_wf _ hWFt)] at hrun
    rcases hml : mergeLoop tk pol (st.hgetall tk) (st.hgetall sk) st 0 0
      with ⟨stL, rL⟩
    rw [hml] at hrun
    obtain ⟨l1, l2, l3, l4, l5, l6⟩ :=
      mergeLoop_spec tk pol (st.hgetall tk) hWFt (st.hgetall sk) st 0 0 hWFs
    rw [hml] at l1 l2 l3 l4 l5 l6
    dsimp only at l1 l2 l3 l4 l5 l6
    rw [l1] at hrun
    simp only at hrun
    have hex : stL.existsKey tk = true := l4 hnonempty
    rw [hex] at hrun
    simp only [if_true, reduceIte] at hrun
    obtain ⟨rfl, rfl⟩ := Prod.mk.injEq .. ▸ hrun
    refine ⟨by simp, ?_, ?_, ?_, ?_, ?_⟩
    · simp [Store.del, getField_delField_self]
    · simp [Store.cartTTL, Store.del, getField_delField_self]
    · intro fp hfp
      rw [hget_del_ne _ _ _ (Ne.symm hne), hget_expire]
      exact l6 hNds fp hfp
    · intro fp hfp hnot
      rw [hget_del_ne _ _ _ (Ne.symm hne), hget_expire]
      exact l5 fp.1 hnot
    · intro k hks hkt
      simp only [Store.del]
      rw [getField_delField_ne _ hks, expire_hashes]
      exact l2 k hkt

/-- Witness for C4: the §8 worked example.  Merging source
`{A: qty 3 @ 12, B: qty 1 @ 5}` into target `{A: qty 2 @ 10}` under `sum`
reports `merged=2, conflicts=1`, leaves the target with `A: qty 5 @ 12` and
`B: qty 1 @ 5`, and deletes the source key. -/
theorem merge_cart_script_spec_witness :
    (MERGE_CART_SCRIPT "cart:s" "cart:t" "sum" 3600 mergeExampleStore).2 =
      .ok (.okMerge 2 1 "sum") ∧
    (MERGE_CART_SCRIPT "cart:s" "cart:t" "sum" 3600 mergeExampleStore).1.hget
      "cart:t" "A" = some (Payload.obj
        [("quantity", JVal.jnum 5), ("price_snapshot", JVal.jstr "12"),
         ("variant", JVal.jstr "")]) ∧
    (MERGE_CART_SCRIPT "cart:s" "cart:t" "sum" 3600 mergeExampleStore).1.hget
      "cart:t" "B" = some (encodeItem 1 "5" "") ∧
    getField (MERGE_CART_SCRIPT "cart:s" "cart:t" "sum" 3600
      mergeExampleStore).1.hashes "cart:s" = none := by
  have h := (merge_cart_script_spec mergeExampleStore
    (MERGE_CART_SCRIPT "cart:s" "cart:t" "sum" 3600 mergeExampleStore).1
    (MERGE_CART_SCRIPT "cart:s" "cart:t" "sum" 3600 mergeExampleStore).2
    "cart:s" "cart:t" "sum" 3600 (by decide) (by decide) (by decide)
    (by decide) rfl).2 (by decide)
  refine ⟨?_, ?_, ?_, h.2.1⟩
  · rw [h.1]
    decide
  · have hA := h.2.2.2.1 ("A", encodeItem 3 "12" "") (by decide)
    rw [hA]
    decide
  · have hB := h.2.2.2.1 ("B", encodeItem 1 "5" "") (by decide)
    rw [hB]
    decide

/-- C10.  Merging a non-empty well-formed cart into itself succeeds and
reports `merged` equal to the cart's item count, yet the unconditional
source-key deletion at the end of the script removes the (identical) target:
the cart key and its TTL are gone.  No guard prevents
`source_cart_id == target_cart_id`. -/
theorem merge_self_destroys_cart (cfg : Config) (st : Store) (c pol : String)
    (hpol : pol = "sum" ∨ pol = "last-write-wins")
    (hne : st.hgetall (cartKeyOf c) ≠ [])
    (hWF : ∀ fp ∈ st.hgetall (cartKeyOf c), isWFEntry fp.2 = true) :
    (CartService.merge_carts cfg st c c pol).2 =
      .ok (.okMerge (st.hlen (cartKeyOf c)) (st.hlen (cartKeyOf c)) pol) ∧
    getField (CartService.merge_carts cfg st c c pol).1.hashes
      (cartKeyOf c) = none ∧
    (CartService.merge_carts cfg st c c pol).1.cartTTL (cartKeyOf c) = none := by
  have hexs : st.existsKey (cartKeyOf c) = true := by
    unfold Store.existsKey
    rw [getField_hashes_eq st _ hne]
    rfl
  have hcount : (st.hgetall (cartKeyOf c)).countP
      (fun fp => (getField (st.hgetall (cartKeyOf c)) fp.1).isSome) =
      (st.hgetall (cartKeyOf c)).length := by
    rw [List.countP_eq_length]
    intro fp hfp
    rcases fp with ⟨pid, p⟩
    exact getField_isSome_of_mem hfp
  unfold CartService.merge_carts
  rw [if_pos hpol]
  dsimp only
  rw [hexs]
  simp only [if_true, reduceIte]
  unfold MERGE_CART_SCRIPT
  dsimp only
  have hemp : ¬ (st.hgetall (cartKeyOf c)).isEmpty = true := by
    rw [List.isEmpty_iff]
    exact hne
  rw [if_neg hemp, if_pos (decodeAllOK_of_wf _ hWF)]
  rcases hml : mergeLoop (cartKeyOf c) pol (st.hgetall (cartKeyOf c))
    (st.hgetall (cartKeyOf c)) st 0 0 with ⟨stL, rL⟩
  obtain ⟨l1, _, _, l4, _, _⟩ :=
    mergeLoop_spec (cartKeyOf c) pol (st.hgetall (cartKeyOf c)) hWF
      (st.hgetall (cartKeyOf c)) st 0 0 hWF
  rw [hml] at l1 l4
  dsimp only at l1 l4
  rw [l1]
  simp only
  have hex : stL.existsKey (cartKeyOf c) = true := l4 hne
  rw [hex]
  simp only [if_true, reduceIte]
  refine ⟨?_, ?_, ?_⟩
  · rw [Store.hlen, hcount]
    simp
  · simp [Store.del, getField_delField_self]
  · simp [Store.cartTTL, Store.del, getField_delField_self]

/-- Witness for C10: the two-item cart `u` merged into itself reports
`merged = 2` with success, and cart key `cart:u` (and its TTL) no longer
exists. -/
theorem merge_self_destroys_cart_witness :
    (CartService.merge_carts defaultConfig selfMergeStore "u" "u" "sum").2 =
      .ok (.okMerge 2 2 "sum") ∧
    getField (CartService.merge_carts defaultConfig selfMergeStore "u" "u"
      "sum").1.hashes "cart:u" = none ∧
    (CartService.merge_carts defaultConfig selfMergeStore "u" "u"
      "sum").1.cartTTL "cart:u" = none := by
  have h := merge_self_destroys_cart defaultConfig selfMergeStore "u" "sum"
    (Or.inl rfl) (by decide) (by decide)
  exact ⟨h.1, h.2.1, h.2.2⟩

end CartSpec
